import Mathlib

set_option maxHeartbeats 1000000

/-!
Shallow embedding of django-csp `csp/utils.py`: the policy builder
`build_policy` and the script-tag renderer `build_script_tag`.

Python's mutable lists are modelled by a `Store` (a heap of token lists,
addressed by position) threaded through the computation; Python tuples
are immutable values.  Python `dict`s are insertion-ordered association
lists with unique keys.  `set(chain(config["DIRECTIVES"], replace))`
iterates in an implementation-defined order; the embedding fixes the
first-appearance order, and no theorem below depends on which order is
chosen (counterexamples use single-key configurations).  A raised
`TypeError` (from `" ".join` over non-string elements) is modelled as
`none`.
-/

namespace Csp

/-- A Python object used as a directive token: a string, a bool
(`True` / `False`), or an int (used by the malformed-input claims). -/
inductive Tok where
  | str (s : String)
  | bool (b : Bool)
  | int (n : Int)
  deriving DecidableEq, Repr

/-- Heap of Python list objects: each cell is one mutable list of tokens. -/
abbrev Store := List (List Tok)

/-- A directive value as supplied by the caller: a scalar (neither list
nor tuple), a tuple (immutable value), or a reference to a list cell. -/
inductive PyVal where
  | scalar (t : Tok)
  | tup (ts : List Tok)
  | lst (a : Nat)
  deriving DecidableEq, Repr

/-- A normalized value held in `csp["DIRECTIVES"]` after the merge
loops: a tuple value, or a reference to a (possibly freshly copied)
list cell. -/
inductive SeqVal where
  | tup (ts : List Tok)
  | lst (a : Nat)
  deriving DecidableEq, Repr

def storeGet (st : Store) (a : Nat) : List Tok := st.getD a []

def storeSet (st : Store) (a : Nat) (l : List Tok) : Store := st.set a l

/-- `d[k]` on an insertion-ordered dict. -/
def dlookup {α : Type} (d : List (String × α)) (k : String) : Option α :=
  match d with
  | [] => none
  | (k', v) :: rest => if k' = k then some v else dlookup rest k

/-- `d[k] = v` on an insertion-ordered dict: update in place if the key
is present, otherwise append. -/
def dinsert {α : Type} (d : List (String × α)) (k : String) (v : α) :
    List (String × α) :=
  match d with
  | [] => [(k, v)]
  | (k', v') :: rest =>
    if k' = k then (k, v) :: rest else (k', v') :: dinsert rest k v

/-- `d.pop(k, None)`: the removed value (if any) and the remaining dict. -/
def dpop {α : Type} (d : List (String × α)) (k : String) :
    Option α × List (String × α) :=
  match d with
  | [] => (none, [])
  | (k', v) :: rest =>
    if k' = k then (some v, rest)
    else
      let r := dpop rest k
      (r.1, (k', v) :: r.2)

def dkeys {α : Type} (d : List (String × α)) : List String := d.map Prod.fst

/-- First-appearance deduplication: the fixed iteration order chosen for
`set(chain(config["DIRECTIVES"], replace))`. -/
def dedupAux : List String → List String → List String
  | [], _ => []
  | k :: ks, seen =>
    if k ∈ seen then dedupAux ks seen else k :: dedupAux ks (k :: seen)

def dedupKeys (l : List String) : List String := dedupAux l []

/-- The whitespace stripped by Python's `str.strip()` (ASCII range). -/
def pyWs (c : Char) : Bool :=
  c = ' ' || c = '\t' || c = '\n' || c = '\r' || c = '\x0b' || c = '\x0c'

def pyStripList (l : List Char) : List Char :=
  ((l.dropWhile pyWs).reverse.dropWhile pyWs).reverse

/-- Python `str.strip()`. -/
def pyStrip (s : String) : String := String.mk (pyStripList s.data)

/-- Python `str.rstrip()`. -/
def pyRStrip (s : String) : String :=
  String.mk ((s.data.reverse.dropWhile pyWs).reverse)

/-- Django's `force_str` on a token (`str(x)` for non-strings). -/
def forceStr : Tok → String
  | .str s => s
  | .bool b => if b then "True" else "False"
  | .int n => toString n

/-- The token sequence denoted by a raw directive value read in a store
(scalars wrap as one-element sequences, like the source's `v = (v,)`). -/
def toksOf (st : Store) : PyVal → List Tok
  | .scalar t => [t]
  | .tup ts => ts
  | .lst a => storeGet st a

def seqToks (st : Store) : SeqVal → List Tok
  | .tup ts => ts
  | .lst a => storeGet st a

/-- The parts of a configuration dict that `build_policy` reads:
`DIRECTIVES`, and `INCLUDE_NONCE_IN` where `none` models an absent key
(defaulted by `config.get("INCLUDE_NONCE_IN", ["default-src"])`). -/
structure Config where
  DIRECTIVES : List (String × Option PyVal)
  INCLUDE_NONCE_IN : Option (List String)
  deriving DecidableEq, Repr

/-- `v = replace[k] if k in replace else config["DIRECTIVES"][k]` (a key
in neither dict yields `none`, the same as an explicit `None` value:
such keys are never iterated). -/
def baseSel (cfgD repD : List (String × Option PyVal)) (k : String) :
    Option PyVal :=
  match dlookup repD k with
  | some vo => vo
  | none => (dlookup cfgD k).getD none

/-- One iteration of the first merge loop of `build_policy` for key `k`:
select the value, skip `None`, `v = copy.copy(v)` (a fresh list cell for
lists), wrap non-sequences as one-element tuples, assign into
`csp["DIRECTIVES"]`. -/
def mergeStep (cfgD repD : List (String × Option PyVal))
    (acc : List (String × SeqVal) × Store) (k : String) :
    List (String × SeqVal) × Store :=
  match baseSel cfgD repD k with
  | none => acc
  | some (.scalar t) => (dinsert acc.1 k (.tup [t]), acc.2)
  | some (.tup ts) => (dinsert acc.1 k (.tup ts), acc.2)
  | some (.lst a) =>
    (dinsert acc.1 k (.lst acc.2.length), acc.2 ++ [storeGet acc.2 a])

/-- The first merge loop: `for k in set(chain(config["DIRECTIVES"],
replace))`, iterated in first-appearance order. -/
def mergeBase (st : Store) (cfgD repD : List (String × Option PyVal)) :
    List (String × SeqVal) × Store :=
  (dedupKeys (dkeys cfgD ++ dkeys repD)).foldl (mergeStep cfgD repD) ([], st)

/-- Normalization in the update loop: `if not isinstance(v, (list,
tuple)): v = (v,)` — no copy, lists stay aliased. -/
def normNoCopy : PyVal → SeqVal
  | .scalar t => .tup [t]
  | .tup ts => .tup ts
  | .lst a => .lst a

/-- One iteration of the update loop: skip `None`, normalize, create the
entry if absent, otherwise `csp["DIRECTIVES"][k] += tuple(v)` (an
in-place extension when the stored value is a list). -/
def updateStep (acc : List (String × SeqVal) × Store)
    (kv : String × Option PyVal) : List (String × SeqVal) × Store :=
  match kv.2 with
  | none => acc
  | some pv =>
    match dlookup acc.1 kv.1 with
    | none => (dinsert acc.1 kv.1 (normNoCopy pv), acc.2)
    | some (.tup ts) =>
      (dinsert acc.1 kv.1 (.tup (ts ++ seqToks acc.2 (normNoCopy pv))), acc.2)
    | some (.lst a) =>
      (acc.1, storeSet acc.2 a (storeGet acc.2 a ++ seqToks acc.2 (normNoCopy pv)))

/-- The second merge loop: `for k, v in update.items()`. -/
def applyUpdate (csp : List (String × SeqVal)) (st : Store)
    (updD : List (String × Option PyVal)) : List (String × SeqVal) × Store :=
  updD.foldl updateStep (csp, st)

/-- The effective update value for a key (absent or `None` → `none`). -/
def updVal (updD : List (String × Option PyVal)) (k : String) :
    Option PyVal :=
  (dlookup updD k).getD none

/-- Combination of a base token sequence with optional update tokens:
update appends, or creates the directive when the base is absent. -/
def mergeUpd : Option (List Tok) → Option (List Tok) → Option (List Tok)
  | none, none => none
  | some b, none => some b
  | none, some u => some u
  | some b, some u => some (b ++ u)

/-- Per-key characterization of the two merge loops (proved below):
the value selected by replace-over-base, with update tokens appended. -/
def mergedToks (st : Store) (cfgD repD updD : List (String × Option PyVal))
    (k : String) : Option (List Tok) :=
  mergeUpd ((baseSel cfgD repD k).map (toksOf st))
    ((updVal updD k).map (toksOf st))

/-- Every list reference in a directive value lies inside the store
(true of any heap a real Python caller can hand in). -/
def valAddrOk (st : Store) : Option PyVal → Bool
  | some (.lst a) => decide (a < st.length)
  | _ => true

def mapAddrsOk (st : Store) (d : List (String × Option PyVal)) : Bool :=
  d.all (fun kv => valAddrOk st kv.2)

/-- Bookkeeping invariant for `csp["DIRECTIVES"]` after the first merge
loop, relative to the input store `st0` and current store `st`:
distinct keys; every list cell was freshly allocated by `copy.copy`
(address at or above `st0`'s length and inside `st`); and no two
entries alias one cell. -/
def CspInv (st0 : Store) (cs : List (String × SeqVal)) (st : Store) : Prop :=
  (dkeys cs).Nodup ∧
  (∀ kv ∈ cs, ∀ a, kv.2 = SeqVal.lst a → st0.length ≤ a ∧ a < st.length) ∧
  (∀ kv ∈ cs, ∀ kv' ∈ cs, ∀ a,
    kv.2 = SeqVal.lst a → kv'.2 = SeqVal.lst a → kv = kv')

def isStrTok : Tok → Bool
  | .str _ => true
  | _ => false

/-- `" ".join(value)`: raises `TypeError` (modelled as `none`) unless
every element is a string. -/
def joinToks (ts : List Tok) : Option String :=
  if ts.all isStrTok then some (String.intercalate " " (ts.map forceStr))
  else none

/-- Serialize one directive value: a first token that is the object
`True` gives an empty value, a first token `False` drops the directive
(`some none`), anything else is space-joined. -/
def serializeOne (st : Store) (v : SeqVal) : Option (Option String) :=
  match seqToks st v with
  | .bool true :: _ => some (some "")
  | .bool false :: _ => some none
  | ts => (joinToks ts).map some

/-- One iteration of the `policy_parts` loop (propagating a raised
`TypeError` as `none`). -/
def partsStep (st : Store) (acc : Option (List (String × String)))
    (kv : String × SeqVal) : Option (List (String × String)) :=
  match acc with
  | none => none
  | some parts =>
    match serializeOne st kv.2 with
    | none => none
    | some none => some parts
    | some (some s) => some (dinsert parts kv.1 s)

/-- The `policy_parts` loop of `build_policy` (`none` = `TypeError`). -/
def buildParts (st : Store) (csp : List (String × SeqVal)) :
    Option (List (String × String)) :=
  csp.foldl (partsStep st) (some [])

/-- `if report_uri: policy_parts["report-uri"] =
" ".join(map(force_str, report_uri))` (an empty popped sequence is
falsy and skipped). -/
def appendReportUri (st : Store) (ru : Option SeqVal)
    (parts : List (String × String)) : List (String × String) :=
  match ru with
  | none => parts
  | some v =>
    let ts := seqToks st v
    if ts.isEmpty then parts
    else dinsert parts "report-uri" (String.intercalate " " (ts.map forceStr))

/-- The nonce-injection loop over `include_nonce_in`. -/
def injectNonce (parts : List (String × String)) (sections : List String)
    (n : String) : List (String × String) :=
  sections.foldl
    (fun ps sec =>
      dinsert ps sec (pyStrip (((dlookup ps sec).getD "") ++ " 'nonce-" ++ n ++ "'")))
    parts

/-- `f"{k} {val}".strip()`. -/
def fragmentOf (kv : String × String) : String := pyStrip (kv.1 ++ " " ++ kv.2)

/-- `"; ".join(...)` over the rendered fragments. -/
def joinParts (parts : List (String × String)) : String :=
  String.intercalate "; " (parts.map fragmentOf)

/-- The state (directive dict and store) after both merge loops. -/
def mergedCsp (st : Store) (config : Config)
    (update replace : List (String × Option PyVal)) :
    List (String × SeqVal) × Store :=
  applyUpdate (mergeBase st config.DIRECTIVES replace).1
    (mergeBase st config.DIRECTIVES replace).2 update

/-- The final `policy_parts` dict (`none` when serialization raises
`TypeError`), paired with the store after the merge loops. -/
def finalParts (st : Store) (config : Config)
    (update replace : List (String × Option PyVal)) (nonce : Option String) :
    Option (List (String × String)) × Store :=
  let au := mergedCsp st config update replace
  let pr := dpop au.1 "report-uri"
  match buildParts au.2 pr.2 with
  | none => (none, au.2)
  | some parts =>
    let parts1 := appendReportUri au.2 pr.1 parts
    let parts2 :=
      match nonce with
      | none => parts1
      | some n =>
        if n = "" then parts1
        else injectNonce parts1 (config.INCLUDE_NONCE_IN.getD ["default-src"]) n
    (some parts2, au.2)

/-- `build_policy(config, update, replace, nonce)`: the policy string
(`none` models a raised `TypeError`), together with the store after the
call (heap mutations are observable here). -/
def build_policy (st : Store) (config : Config)
    (update replace : List (String × Option PyVal)) (nonce : Option String) :
    Option String × Store :=
  let fp := finalParts st config update replace nonce
  (fp.1.map joinParts, fp.2)

/-- `policy_parts` right after the report-uri append, before nonce
injection. -/
def partsBeforeNonce (st : Store) (config : Config)
    (update replace : List (String × Option PyVal)) :
    Option (List (String × String)) :=
  let au := mergedCsp st config update replace
  let pr := dpop au.1 "report-uri"
  (buildParts au.2 pr.2).map (appendReportUri au.2 pr.1)

/-- The rendered fragments of the final policy string, in order;
`build_policy`'s first component is these joined with `"; "`. -/
def finalFragments (st : Store) (config : Config)
    (update replace : List (String × Option PyVal)) (nonce : Option String) :
    Option (List String) :=
  (finalParts st config update replace nonce).1.map (List.map fragmentOf)

/-! ### Script-tag renderer -/

/-- A Python value passed for a script attribute. -/
inductive AttrVal where
  | bool (b : Bool)
  | str (s : String)
  | int (n : Int)
  deriving DecidableEq, Repr

/-- Python truthiness of an attribute value (`none` models both an
absent keyword argument and an explicit `None`). -/
def attrTruthy : Option AttrVal → Bool
  | none => false
  | some (.bool b) => b
  | some (.str s) => s ≠ ""
  | some (.int n) => n ≠ 0

/-- `str()` of an attribute value, as interpolated by the f-string. -/
def attrStr : AttrVal → String
  | .bool b => if b then "True" else "False"
  | .str s => s
  | .int n => toString n

/-- Python `==` between an (optional) attribute value and a constant:
bools and ints compare by numeric value across types; `None` equals
neither `False` nor `"False"`. -/
def pyEq : Option AttrVal → AttrVal → Bool
  | none, _ => false
  | some (.bool a), .bool b => a = b
  | some (.bool a), .int n => (if a then (1 : Int) else 0) = n
  | some (.int n), .bool b => n = (if b then (1 : Int) else 0)
  | some (.int m), .int n => m = n
  | some (.str s), .str t => s = t
  | some (.str _), .bool _ => false
  | some (.str _), .int _ => false
  | some (.bool _), .str _ => false
  | some (.int _), .str _ => false

def _default_attr_mapper (name : String) (val : Option AttrVal) : String :=
  if attrTruthy val then " " ++ name ++ "=\"" ++ attrStr (val.getD (.str "")) ++ "\""
  else ""

def _bool_attr_mapper (name : String) (val : Option AttrVal) : String :=
  if attrTruthy val then " " ++ name else ""

/-- `if val in [False, "False"]: ... elif val: ... else: ...`. -/
def _async_attr_mapper (name : String) (val : Option AttrVal) : String :=
  if pyEq val (.bool false) || pyEq val (.str "False") then
    " " ++ name ++ "=false"
  else if attrTruthy val then " " ++ name
  else ""

def SCRIPT_ATTRS : List String :=
  ["nonce", "id", "src", "type", "async", "defer", "integrity", "nomodule"]

/-- Dispatch of `SCRIPT_ATTRS[name]` applied to `kwargs.get(name)`. -/
def attrFragment (kwargs : List (String × AttrVal)) (name : String) : String :=
  if name = "async" then _async_attr_mapper name (dlookup kwargs name)
  else if name = "defer" ∨ name = "nomodule" then
    _bool_attr_mapper name (dlookup kwargs name)
  else _default_attr_mapper name (dlookup kwargs name)

def openTag : List Char := "<script".data

def closeTag : List Char := "</script>".data

/-- Does `pat` occur in `l` starting at index `i`? -/
def isSubAt (pat l : List Char) (i : Nat) : Bool := pat.isPrefixOf (l.drop i)

/-- Greatest `j < n` with `isSubAt pat l j`. -/
def lastOccBelow (pat l : List Char) : Nat → Option Nat
  | 0 => none
  | n + 1 => if isSubAt pat l n then some n else lastOccBelow pat l n

/-- Least `j` with `i ≤ j < i + fuel` and `p j`. -/
def scanFirst (p : Nat → Bool) : Nat → Nat → Option Nat
  | _, 0 => none
  | i, fuel + 1 => if p i then some i else scanFirst p (i + 1) fuel

def firstOcc (pat l : List Char) : Option Nat :=
  scanFirst (isSubAt pat l) 0 (l.length + 1)

/-- The match of `re.search(r"<script[\s|\S]*?>([\s|\S]+)</script>", t)`:
`some (q, r)` gives the position `q` of the `>` ending the opening tag
(minimal, from the lazy `*?`) and the position `r` of the closing
`</script>` (maximal, from the greedy `+`, hence the last occurrence in
the whole string); the capture group is `l[q+1 .. r)`, which must be
nonempty, so `q + 2 ≤ r`. -/
def scriptMatch (l : List Char) : Option (Nat × Nat) :=
  match firstOcc openTag l with
  | none => none
  | some p =>
    match lastOccBelow closeTag l l.length with
    | none => none
    | some r =>
      match scanFirst (fun q => decide (l.getD q ' ' = '>') && decide (q + 2 ≤ r))
          (p + 7) l.length with
      | none => none
      | some q => some (q, r)

/-- `_unwrap_script`: extract (and strip) the capture group if the
pattern matches, otherwise return the text unchanged. -/
def _unwrap_script (text : String) : String :=
  match scriptMatch text.data with
  | none => text
  | some (q, r) =>
    String.mk (pyStripList ((text.data.drop (q + 1)).take (r - (q + 1))))

def contentTruthy : Option String → Bool
  | none => false
  | some s => s ≠ ""

/-- `build_script_tag(content, **kwargs)`. -/
def build_script_tag (content : Option String)
    (kwargs : List (String × AttrVal)) : String :=
  let attrs := pyRStrip (String.join (SCRIPT_ATTRS.map (attrFragment kwargs)))
  let c :=
    if contentTruthy content && !attrTruthy (dlookup kwargs "src") then
      _unwrap_script (content.getD "")
    else ""
  pyStrip ("<script" ++ attrs ++ ">" ++ c ++ "</script>")

/-! ### Dictionary lemmas -/

theorem dlookup_dinsert_self {α : Type} (d : List (String × α)) (k : String)
    (v : α) : dlookup (dinsert d k v) k = some v := by
  induction d with
  | nil => simp [dinsert, dlookup]
  | cons kv rest ih =>
    obtain ⟨k0, v0⟩ := kv
    by_cases hk : k0 = k
    · subst hk; simp [dinsert, dlookup]
    · simp [dinsert, dlookup, hk, ih]

theorem dlookup_dinsert_ne {α : Type} (d : List (String × α)) (k k' : String)
    (v : α) (h : k' ≠ k) : dlookup (dinsert d k v) k' = dlookup d k' := by
  induction d with
  | nil => simp [dinsert, dlookup, Ne.symm h]
  | cons kv rest ih =>
    obtain ⟨k0, v0⟩ := kv
    by_cases hk : k0 = k
    · subst hk; simp [dinsert, dlookup, Ne.symm h]
    · simp [dinsert, dlookup, hk, ih]

theorem dinsert_of_not_mem {α : Type} (d : List (String × α)) (k : String)
    (v : α) (h : k ∉ dkeys d) : dinsert d k v = d ++ [(k, v)] := by
  induction d with
  | nil => simp [dinsert]
  | cons kv rest ih =>
    obtain ⟨k0, v0⟩ := kv
    simp only [dkeys, List.map_cons, List.mem_cons] at h
    push_neg at h
    simp [dinsert, Ne.symm h.1, ih h.2]

theorem dkeys_dinsert_of_mem {α : Type} (d : List (String × α)) (k : String)
    (v : α) (h : k ∈ dkeys d) : dkeys (dinsert d k v) = dkeys d := by
  induction d with
  | nil => simp [dkeys] at h
  | cons kv rest ih =>
    obtain ⟨k0, v0⟩ := kv
    simp only [dkeys, List.map_cons, List.mem_cons] at h
    by_cases hk : k0 = k
    · simp [dinsert, dkeys, hk]
    · rcases h with h | h
      · exact absurd h.symm hk
      · simpa [dinsert, dkeys, hk] using ih h

theorem dlookup_eq_none_iff {α : Type} (d : List (String × α)) (k : String) :
    dlookup d k = none ↔ k ∉ dkeys d := by
  induction d with
  | nil => simp [dlookup, dkeys]
  | cons kv rest ih =>
    obtain ⟨k0, v0⟩ := kv
    by_cases hk : k0 = k
    · subst hk; simp [dlookup, dkeys]
    · simp [dlookup, dkeys, hk, ih, Ne.symm hk]

theorem mem_of_dlookup {α : Type} {d : List (String × α)} {k : String}
    {v : α} (h : dlookup d k = some v) : (k, v) ∈ d := by
  induction d with
  | nil => simp [dlookup] at h
  | cons kv rest ih =>
    obtain ⟨k0, v0⟩ := kv
    by_cases hk : k0 = k
    · subst hk
      have h2 : v0 = v := by simpa [dlookup] using h
      subst h2
      exact List.mem_cons_self _ _
    · simp only [dlookup, if_neg hk] at h
      exact List.mem_cons_of_mem _ (ih h)

theorem nodup_dkeys_dinsert {α : Type} (d : List (String × α)) (k : String)
    (v : α) (h : (dkeys d).Nodup) : (dkeys (dinsert d k v)).Nodup := by
  by_cases hm : k ∈ dkeys d
  · rwa [dkeys_dinsert_of_mem d k v hm]
  · rw [dinsert_of_not_mem d k v hm]
    have : dkeys (d ++ [(k, v)]) = dkeys d ++ [k] := by simp [dkeys]
    rw [this, List.nodup_append]
    refine ⟨h, List.nodup_singleton _, ?_⟩
    intro a ha hb
    simp only [List.mem_singleton] at hb
    subst hb
    exact hm ha

theorem dpop_fst {α : Type} (d : List (String × α)) (k : String) :
    (dpop d k).1 = dlookup d k := by
  induction d with
  | nil => simp [dpop, dlookup]
  | cons kv rest ih =>
    obtain ⟨k0, v0⟩ := kv
    by_cases hk : k0 = k
    · simp [dpop, dlookup, hk]
    · simp [dpop, dlookup, hk, ih]

theorem dlookup_dpop_ne {α : Type} (d : List (String × α)) (k k' : String)
    (h : k' ≠ k) : dlookup (dpop d k).2 k' = dlookup d k' := by
  induction d with
  | nil => simp [dpop]
  | cons kv rest ih =>
    obtain ⟨k0, v0⟩ := kv
    by_cases hk : k0 = k
    · subst hk; simp [dpop, dlookup, Ne.symm h]
    · simp [dpop, dlookup, hk, ih]

theorem mem_dkeys_dpop {α : Type} (d : List (String × α)) (k k' : String)
    (h : k' ∈ dkeys (dpop d k).2) : k' ∈ dkeys d := by
  induction d with
  | nil => simp [dpop, dkeys] at h
  | cons kv rest ih =>
    obtain ⟨k0, v0⟩ := kv
    by_cases hk : k0 = k
    · simp only [dpop, hk, if_pos rfl] at h
      exact List.mem_cons_of_mem _ h
    · simp only [dpop, if_neg hk, dkeys, List.map_cons, List.mem_cons] at h ⊢
      exact h.imp id ih

theorem dlookup_dpop_self {α : Type} (d : List (String × α)) (k : String)
    (h : (dkeys d).Nodup) : dlookup (dpop d k).2 k = none := by
  induction d with
  | nil => simp [dpop, dlookup]
  | cons kv rest ih =>
    obtain ⟨k0, v0⟩ := kv
    simp only [dkeys, List.map_cons, List.nodup_cons] at h
    by_cases hk : k0 = k
    · subst hk
      simp only [dpop, if_pos rfl]
      rw [dlookup_eq_none_iff]
      exact h.1
    · simp [dpop, dlookup, hk, ih h.2]

theorem nodup_dkeys_dpop {α : Type} (d : List (String × α)) (k : String)
    (h : (dkeys d).Nodup) : (dkeys (dpop d k).2).Nodup := by
  induction d with
  | nil => simp [dpop, dkeys]
  | cons kv rest ih =>
    obtain ⟨k0, v0⟩ := kv
    simp only [dkeys, List.map_cons, List.nodup_cons] at h
    by_cases hk : k0 = k
    · simpa [dpop, hk, dkeys] using h.2
    · simp only [dpop, if_neg hk, dkeys, List.map_cons, List.nodup_cons]
      exact ⟨fun hm => h.1 (mem_dkeys_dpop rest k k0 hm), ih h.2⟩

/-! ### Dedup lemmas -/

theorem mem_dedupAux (l : List String) : ∀ (seen : List String) (k : String),
    k ∈ dedupAux l seen ↔ k ∈ l ∧ k ∉ seen := by
  induction l with
  | nil => simp [dedupAux]
  | cons a as ih =>
    intro seen k
    by_cases ha : a ∈ seen
    · rw [dedupAux, if_pos ha, ih]
      constructor
      · exact fun h => ⟨List.mem_cons_of_mem _ h.1, h.2⟩
      · rintro ⟨h1, h2⟩
        rcases List.mem_cons.mp h1 with rfl | h1
        · exact absurd ha h2
        · exact ⟨h1, h2⟩
    · rw [dedupAux, if_neg ha]
      constructor
      · intro hm
        rcases List.mem_cons.mp hm with rfl | hm
        · exact ⟨List.mem_cons_self _ _, ha⟩
        · rw [ih] at hm
          refine ⟨List.mem_cons_of_mem _ hm.1, fun hs => hm.2 ?_⟩
          exact List.mem_cons_of_mem _ hs
      · rintro ⟨h1, h2⟩
        rcases List.mem_cons.mp h1 with rfl | h1
        · exact List.mem_cons_self _ _
        · by_cases hak : k = a
          · exact hak ▸ List.mem_cons_self _ _
          · refine List.mem_cons_of_mem _ ((ih _ _).mpr ⟨h1, ?_⟩)
            simp [h2, hak]

theorem mem_dedupKeys (l : List String) (k : String) :
    k ∈ dedupKeys l ↔ k ∈ l := by
  simp [dedupKeys, mem_dedupAux]

theorem nodup_dedupAux (l : List String) : ∀ seen : List String,
    (dedupAux l seen).Nodup := by
  induction l with
  | nil => simp [dedupAux]
  | cons a as ih =>
    intro seen
    by_cases ha : a ∈ seen
    · rw [dedupAux, if_pos ha]; exact ih seen
    · rw [dedupAux, if_neg ha]
      refine List.nodup_cons.mpr ⟨fun hm => ?_, ih _⟩
      exact ((mem_dedupAux as _ a).mp hm).2 (List.mem_cons_self _ _)

theorem nodup_dedupKeys (l : List String) : (dedupKeys l).Nodup :=
  nodup_dedupAux l []

/-! ### Store lemmas -/

theorem storeGet_append_lt : ∀ (st ext : Store) (a : Nat), a < st.length →
    storeGet (st ++ ext) a = storeGet st a
  | [], _, a, h => absurd h (by simp)
  | x :: st, ext, 0, _ => rfl
  | x :: st, ext, a + 1, h =>
    storeGet_append_lt st ext a (by simpa using h)

theorem storeSet_append_ge : ∀ (st ext : Store) (a : Nat) (l : List Tok),
    st.length ≤ a →
    storeSet (st ++ ext) a l = st ++ storeSet ext (a - st.length) l
  | [], ext, a, l, _ => by simp [storeSet]
  | x :: st, ext, 0, l, h => absurd h (by simp)
  | x :: st, ext, a + 1, l, h => by
    have ih := storeSet_append_ge st ext a l (by simpa using h)
    simp only [List.cons_append, storeSet, List.set] at ih ⊢
    simp [ih, Nat.succ_sub_succ]

theorem storeGet_storeSet_ne (st : Store) (a b : Nat) (l : List Tok)
    (h : a ≠ b) : storeGet (storeSet st a l) b = storeGet st b := by
  simp [storeGet, storeSet, List.getD, List.getElem?_set_ne h]

theorem storeGet_storeSet_self (st : Store) (a : Nat) (l : List Tok)
    (h : a < st.length) : storeGet (storeSet st a l) a = l := by
  simp [storeGet, storeSet, List.getD, List.getElem?_set_self, h]

theorem storeSet_length (st : Store) (a : Nat) (l : List Tok) :
    (storeSet st a l).length = st.length := by
  simp [storeSet]

theorem storeGet_of_ge_length (st : Store) (a : Nat) (h : st.length ≤ a) :
    storeGet st a = [] := by
  simp [storeGet, List.getD, List.getElem?_eq_none h]

/-! ### Strip lemmas -/

theorem dropWhile_append {α : Type} (p : α → Bool) : ∀ (l m : List α),
    (l ++ m).dropWhile p =
      if (l.dropWhile p).isEmpty then m.dropWhile p else l.dropWhile p ++ m
  | [], m => by simp
  | a :: l, m => by
    by_cases h : p a
    · rw [List.cons_append, List.dropWhile_cons, if_pos h,
        List.dropWhile_cons, if_pos h, dropWhile_append p l m]
    · simp [List.dropWhile_cons, h]

/-- Stripping a string that ends in a block whose first and last
characters are not whitespace keeps that block as a suffix. -/
theorem pyStripList_append_keep (a nz : List Char) (w u : Char)
    (ws us : List Char) (hnz : nz = w :: ws) (hrev : nz.reverse = u :: us)
    (hw : pyWs w = false) (hu : pyWs u = false) :
    pyStripList (a ++ nz) = a.dropWhile pyWs ++ nz := by
  have h1 : (a ++ nz).dropWhile pyWs = a.dropWhile pyWs ++ nz := by
    rw [dropWhile_append]
    by_cases he : (a.dropWhile pyWs).isEmpty
    · rw [if_pos he]
      have h0 : a.dropWhile pyWs = [] := by
        cases hq : a.dropWhile pyWs
        · rfl
        · rw [hq] at he; simp at he
      rw [h0, List.nil_append, hnz, List.dropWhile_cons, if_neg (by simp [hw])]
    · rw [if_neg he]
  have h2 : us.reverse ++ [u] = nz := by
    have h3 := congrArg List.reverse hrev
    rw [List.reverse_reverse] at h3
    simpa using h3.symm
  rw [pyStripList, h1, List.reverse_append, hrev, List.cons_append,
    List.dropWhile_cons, if_neg (by simp [hu])]
  rw [List.reverse_cons, List.reverse_append, List.reverse_reverse]
  rw [List.append_assoc, h2]

/-- Stripping is unaffected by a trailing whitespace character. -/
theorem pyStripList_append_ws (l : List Char) (c : Char)
    (hc : pyWs c = true) : pyStripList (l ++ [c]) = pyStripList l := by
  rw [pyStripList, pyStripList, dropWhile_append]
  by_cases he : (l.dropWhile pyWs).isEmpty
  · rw [if_pos he]
    have h0 : l.dropWhile pyWs = [] := by
      cases hq : l.dropWhile pyWs
      · rfl
      · rw [hq] at he; simp at he
    rw [h0]
    simp [List.dropWhile_cons, hc]
  · rw [if_neg he, List.reverse_append]
    simp only [List.reverse_cons, List.reverse_nil, List.nil_append,
      List.singleton_append]
    rw [List.dropWhile_cons, if_pos (by simp [hc])]

theorem pyStrip_append_space (k : String) : pyStrip (k ++ " ") = pyStrip k := by
  rw [pyStrip, pyStrip]
  have hd : (k ++ " ").data = k.data ++ [' '] := by
    simp [String.data_append]
  rw [hd, pyStripList_append_ws k.data ' ' (by decide)]

/-! ### Frame lemmas: the merge loops only extend the caller's store -/

theorem mem_dinsert {α : Type} {d : List (String × α)} {k : String} {v : α}
    {x : String × α} (h : x ∈ dinsert d k v) : x = (k, v) ∨ x ∈ d := by
  induction d with
  | nil => simpa [dinsert] using h
  | cons kv rest ih =>
    obtain ⟨k0, v0⟩ := kv
    by_cases hk : k0 = k
    · rw [dinsert, if_pos hk] at h
      rcases List.mem_cons.mp h with rfl | h
      · exact Or.inl rfl
      · exact Or.inr (List.mem_cons_of_mem _ h)
    · rw [dinsert, if_neg hk] at h
      rcases List.mem_cons.mp h with rfl | h
      · exact Or.inr (List.mem_cons_self _ _)
      · rcases ih h with h | h
        · exact Or.inl h
        · exact Or.inr (List.mem_cons_of_mem _ h)

theorem mergeFold_extends (cfgD repD : List (String × Option PyVal))
    (st0 : Store) : ∀ (l : List String) (csp : List (String × SeqVal))
    (st : Store), (∃ ext, st = st0 ++ ext) →
    (∀ kv ∈ csp, ∀ a, kv.2 = SeqVal.lst a → st0.length ≤ a) →
    (∃ ext, (l.foldl (mergeStep cfgD repD) (csp, st)).2 = st0 ++ ext) ∧
    (∀ kv ∈ (l.foldl (mergeStep cfgD repD) (csp, st)).1, ∀ a,
      kv.2 = SeqVal.lst a → st0.length ≤ a) := by
  intro l
  induction l with
  | nil => exact fun csp st h1 h2 => ⟨h1, h2⟩
  | cons k ks ih =>
    intro csp st h1 h2
    rw [List.foldl_cons]
    obtain ⟨ext, hext⟩ := h1
    cases hv : baseSel cfgD repD k with
    | none =>
      rw [mergeStep, hv]
      exact ih csp st ⟨ext, hext⟩ h2
    | some pv =>
      cases pv with
      | scalar t =>
        rw [mergeStep, hv]
        refine ih _ st ⟨ext, hext⟩ ?_
        intro kv hm a ha
        rcases mem_dinsert hm with rfl | hm
        · simp at ha
        · exact h2 kv hm a ha
      | tup ts =>
        rw [mergeStep, hv]
        refine ih _ st ⟨ext, hext⟩ ?_
        intro kv hm a ha
        rcases mem_dinsert hm with rfl | hm
        · simp at ha
        · exact h2 kv hm a ha
      | lst b =>
        rw [mergeStep, hv]
        refine ih _ _ ⟨ext ++ [storeGet st b], by rw [hext, List.append_assoc]⟩ ?_
        intro kv hm a ha
        rcases mem_dinsert hm with rfl | hm
        · simp only [SeqVal.lst.injEq] at ha
          subst ha
          rw [hext]
          simp
        · exact h2 kv hm a ha

theorem mergeBase_extends (st0 : Store)
    (cfgD repD : List (String × Option PyVal)) :
    (∃ ext, (mergeBase st0 cfgD repD).2 = st0 ++ ext) ∧
    (∀ kv ∈ (mergeBase st0 cfgD repD).1, ∀ a, kv.2 = SeqVal.lst a →
      st0.length ≤ a) := by
  rw [mergeBase]
  exact mergeFold_extends cfgD repD st0 _ [] st0 ⟨[], by simp⟩ (by simp)

theorem applyUpdate_cons (csp : List (String × SeqVal)) (st : Store)
    (kv : String × Option PyVal) (rest : List (String × Option PyVal)) :
    applyUpdate csp st (kv :: rest) =
      applyUpdate (updateStep (csp, st) kv).1 (updateStep (csp, st) kv).2 rest := by
  rw [applyUpdate, applyUpdate, List.foldl_cons]

theorem applyUpdate_extends (st0 : Store) :
    ∀ (updD : List (String × Option PyVal)) (csp : List (String × SeqVal))
    (st : Store), (∃ ext, st = st0 ++ ext) →
    (∀ kv ∈ csp, ∀ a, kv.2 = SeqVal.lst a →
      st0.length ≤ a ∨ kv.1 ∉ dkeys updD) →
    (dkeys updD).Nodup →
    ∃ ext, (applyUpdate csp st updD).2 = st0 ++ ext := by
  intro updD
  induction updD with
  | nil => intro csp st h1 _ _; simpa [applyUpdate] using h1
  | cons kv rest ih =>
    intro csp st h1 h2 h3
    rw [applyUpdate_cons]
    simp only [dkeys, List.map_cons, List.nodup_cons] at h3
    have hweak : ∀ x ∈ csp, ∀ a, x.2 = SeqVal.lst a →
        st0.length ≤ a ∨ x.1 ∉ dkeys rest := by
      intro x hx a ha
      rcases h2 x hx a ha with h | h
      · exact Or.inl h
      · exact Or.inr fun hm => h (by simp [dkeys] at hm ⊢; exact Or.inr hm)
    cases hv : kv.2 with
    | none =>
      rw [updateStep]
      rw [hv]
      exact ih csp st h1 hweak h3.2
    | some pv =>
      rw [updateStep, hv]
      cases hl : dlookup csp kv.1 with
      | none =>
        refine ih _ st h1 ?_ h3.2
        intro x hx a ha
        rcases mem_dinsert hx with rfl | hx
        · cases pv with
          | scalar t => simp [normNoCopy] at ha
          | tup ts => simp [normNoCopy] at ha
          | lst b =>
            exact Or.inr (show kv.1 ∉ List.map Prod.fst rest from h3.1)
        · exact hweak x hx a ha
      | some sv =>
        cases sv with
        | tup ts =>
          refine ih _ st h1 ?_ h3.2
          intro x hx a ha
          rcases mem_dinsert hx with rfl | hx
          · simp at ha
          · exact hweak x hx a ha
        | lst a =>
          have hmem : (kv.1, SeqVal.lst a) ∈ csp := mem_of_dlookup hl
          have hge : st0.length ≤ a := by
            rcases h2 _ hmem a rfl with h | h
            · exact h
            · exact absurd (by simp [dkeys]) h
          obtain ⟨ext, hext⟩ := h1
          have hset : storeSet st a (storeGet st a ++ seqToks st (normNoCopy pv)) =
              st0 ++ storeSet ext (a - st0.length)
                (storeGet st a ++ seqToks st (normNoCopy pv)) := by
            rw [hext, storeSet_append_ge st0 ext a _ hge]
          exact ih csp _ ⟨_, hset⟩ hweak h3.2

theorem finalParts_snd (st : Store) (cfg : Config)
    (upd rep : List (String × Option PyVal)) (nonce : Option String) :
    (finalParts st cfg upd rep nonce).2 = (mergedCsp st cfg upd rep).2 := by
  simp only [finalParts]
  cases buildParts (mergedCsp st cfg upd rep).2
      (dpop (mergedCsp st cfg upd rep).1 "report-uri").2 with
  | none => rfl
  | some parts => rfl

theorem build_policy_snd (st : Store) (cfg : Config)
    (upd rep : List (String × Option PyVal)) (nonce : Option String) :
    (build_policy st cfg upd rep nonce).2 = (finalParts st cfg upd rep nonce).2 :=
  rfl

/-! ### Per-key correctness of the two merge loops -/

theorem storeGet_append_self : ∀ (st : Store) (x : List Tok) (ext : Store),
    storeGet (st ++ x :: ext) st.length = x
  | [], _, _ => rfl
  | _ :: st, x, ext => storeGet_append_self st x ext

theorem baseSel_mem (cfgD repD : List (String × Option PyVal)) (k : String)
    (pv : PyVal) (h : baseSel cfgD repD k = some pv) :
    (k, some pv) ∈ repD ∨ (k, some pv) ∈ cfgD := by
  rw [baseSel] at h
  cases hr : dlookup repD k with
  | some vo =>
    rw [hr] at h
    exact Or.inl (h ▸ mem_of_dlookup hr)
  | none =>
    rw [hr] at h
    cases hc : dlookup cfgD k with
    | none => rw [hc] at h; simp at h
    | some vo =>
      rw [hc] at h
      simp only [Option.getD_some] at h
      exact Or.inr (h ▸ mem_of_dlookup hc)

theorem mapAddrsOk_mem {st : Store} {d : List (String × Option PyVal)}
    {k : String} {a : Nat} (hd : mapAddrsOk st d = true)
    (h : (k, some (PyVal.lst a)) ∈ d) : a < st.length := by
  rw [mapAddrsOk, List.all_eq_true] at hd
  have := hd _ h
  simpa [valAddrOk] using this

theorem CspInv_extend_store (st0 : Store) (cs : List (String × SeqVal))
    (st ext : Store) (h : CspInv st0 cs st) : CspInv st0 cs (st ++ ext) := by
  refine ⟨h.1, fun kv hm a ha => ?_, h.2.2⟩
  obtain ⟨h1, h2⟩ := h.2.1 kv hm a ha
  exact ⟨h1, lt_of_lt_of_le h2 (by simp)⟩

theorem CspInv_dinsert_tup (st0 : Store) (cs : List (String × SeqVal))
    (st : Store) (k : String) (ts : List Tok) (h : CspInv st0 cs st) :
    CspInv st0 (dinsert cs k (SeqVal.tup ts)) st := by
  refine ⟨nodup_dkeys_dinsert cs k _ h.1, ?_, ?_⟩
  · intro kv hm a ha
    rcases mem_dinsert hm with rfl | hm
    · simp at ha
    · exact h.2.1 kv hm a ha
  · intro kv hm kv' hm' a ha ha'
    rcases mem_dinsert hm with rfl | hm
    · simp at ha
    · rcases mem_dinsert hm' with rfl | hm'
      · simp at ha'
      · exact h.2.2 kv hm kv' hm' a ha ha'

theorem CspInv_dinsert_fresh (st0 : Store) (cs : List (String × SeqVal))
    (st : Store) (k : String) (x : List Tok) (h : CspInv st0 cs st)
    (hst : ∃ ext, st = st0 ++ ext) :
    CspInv st0 (dinsert cs k (SeqVal.lst st.length)) (st ++ [x]) := by
  obtain ⟨ext, hext⟩ := hst
  have hlen : st0.length ≤ st.length := by rw [hext]; simp
  refine ⟨nodup_dkeys_dinsert cs k _ h.1, ?_, ?_⟩
  · intro kv hm a ha
    rcases mem_dinsert hm with rfl | hm
    · simp only [SeqVal.lst.injEq] at ha
      subst ha
      exact ⟨hlen, by simp⟩
    · obtain ⟨h1, h2⟩ := h.2.1 kv hm a ha
      exact ⟨h1, lt_of_lt_of_le h2 (by simp)⟩
  · intro kv hm kv' hm' a ha ha'
    rcases mem_dinsert hm with rfl | hm
    · rcases mem_dinsert hm' with rfl | hm'
      · rfl
      · simp only [SeqVal.lst.injEq] at ha
        obtain ⟨_, h2⟩ := h.2.1 kv' hm' a ha'
        omega
    · rcases mem_dinsert hm' with rfl | hm'
      · simp only [SeqVal.lst.injEq] at ha'
        obtain ⟨_, h2⟩ := h.2.1 kv hm a ha
        omega
      · exact h.2.2 kv hm kv' hm' a ha ha'

theorem mergeFold_spec (cfgD repD : List (String × Option PyVal)) (st0 : Store)
    (hcfg : mapAddrsOk st0 cfgD = true) (hrep : mapAddrsOk st0 repD = true) :
    ∀ (l : List String) (csp : List (String × SeqVal)) (st : Store),
    l.Nodup →
    (∀ k ∈ l, dlookup csp k = none) →
    (∃ ext, st = st0 ++ ext) →
    CspInv st0 csp st →
    (∃ ext, (l.foldl (mergeStep cfgD repD) (csp, st)).2 = st ++ ext) ∧
    (∀ k, k ∉ l →
      dlookup (l.foldl (mergeStep cfgD repD) (csp, st)).1 k = dlookup csp k) ∧
    (∀ k ∈ l, (dlookup (l.foldl (mergeStep cfgD repD) (csp, st)).1 k).map
        (seqToks (l.foldl (mergeStep cfgD repD) (csp, st)).2) =
      (baseSel cfgD repD k).map (toksOf st0)) ∧
    CspInv st0 (l.foldl (mergeStep cfgD repD) (csp, st)).1
      (l.foldl (mergeStep cfgD repD) (csp, st)).2 := by
  intro l
  induction l with
  | nil =>
    intro csp st _ _ _ hinv
    exact ⟨⟨[], by simp⟩, fun k _ => rfl, by simp, hinv⟩
  | cons k ks ih =>
    intro csp st hnd hfresh hst hinv
    rw [List.foldl_cons]
    rw [List.nodup_cons] at hnd
    have hkne : ∀ k' ∈ ks, k' ≠ k := fun k' hk' e => hnd.1 (e ▸ hk')
    cases hv : baseSel cfgD repD k with
    | none =>
      rw [mergeStep, hv]
      obtain ⟨hA, hB, hC, hD⟩ := ih csp st hnd.2
        (fun k' hk' => hfresh k' (List.mem_cons_of_mem _ hk')) hst hinv
      refine ⟨hA, fun k' hk' => hB k' (fun h => hk' (List.mem_cons_of_mem _ h)),
        ?_, hD⟩
      intro k' hk'
      rcases List.mem_cons.mp hk' with rfl | hk'
      · rw [hB k' hnd.1, hfresh k' (List.mem_cons_self _ _), hv]
        rfl
      · exact hC k' hk'
    | some pv =>
      cases pv with
      | scalar t =>
        rw [mergeStep, hv]
        have hfresh' : ∀ k' ∈ ks,
            dlookup (dinsert csp k (SeqVal.tup [t])) k' = none := by
          intro k' hk'
          rw [dlookup_dinsert_ne _ _ _ _ (hkne k' hk')]
          exact hfresh k' (List.mem_cons_of_mem _ hk')
        obtain ⟨hA, hB, hC, hD⟩ := ih _ st hnd.2 hfresh' hst
          (CspInv_dinsert_tup st0 csp st k [t] hinv)
        refine ⟨hA, ?_, ?_, hD⟩
        · intro k' hk'
          have h1 : k' ≠ k := fun e => hk' (e ▸ List.mem_cons_self k ks)
          rw [hB k' (fun h => hk' (List.mem_cons_of_mem _ h)),
            dlookup_dinsert_ne _ _ _ _ h1]
        · intro k' hk'
          rcases List.mem_cons.mp hk' with rfl | hk'
          · rw [hB k' hnd.1, dlookup_dinsert_self, hv]
            rfl
          · exact hC k' hk'
      | tup ts =>
        rw [mergeStep, hv]
        have hfresh' : ∀ k' ∈ ks,
            dlookup (dinsert csp k (SeqVal.tup ts)) k' = none := by
          intro k' hk'
          rw [dlookup_dinsert_ne _ _ _ _ (hkne k' hk')]
          exact hfresh k' (List.mem_cons_of_mem _ hk')
        obtain ⟨hA, hB, hC, hD⟩ := ih _ st hnd.2 hfresh' hst
          (CspInv_dinsert_tup st0 csp st k ts hinv)
        refine ⟨hA, ?_, ?_, hD⟩
        · intro k' hk'
          have h1 : k' ≠ k := fun e => hk' (e ▸ List.mem_cons_self k ks)
          rw [hB k' (fun h => hk' (List.mem_cons_of_mem _ h)),
            dlookup_dinsert_ne _ _ _ _ h1]
        · intro k' hk'
          rcases List.mem_cons.mp hk' with rfl | hk'
          · rw [hB k' hnd.1, dlookup_dinsert_self, hv]
            rfl
          · exact hC k' hk'
      | lst b =>
        rw [mergeStep, hv]
        have hb : b < st0.length := by
          rcases baseSel_mem cfgD repD k _ hv with h | h
          · exact mapAddrsOk_mem hrep h
          · exact mapAddrsOk_mem hcfg h
        obtain ⟨ext, hext⟩ := hst
        have hcell : storeGet st b = storeGet st0 b := by
          rw [hext, storeGet_append_lt st0 ext b hb]
        have hfresh' : ∀ k' ∈ ks,
            dlookup (dinsert csp k (SeqVal.lst st.length)) k' = none := by
          intro k' hk'
          rw [dlookup_dinsert_ne _ _ _ _ (hkne k' hk')]
          exact hfresh k' (List.mem_cons_of_mem _ hk')
        have hst' : ∃ ext', st ++ [storeGet st b] = st0 ++ ext' :=
          ⟨ext ++ [storeGet st b], by rw [hext, List.append_assoc]⟩
        obtain ⟨hA, hB, hC, hD⟩ := ih _ _ hnd.2 hfresh' hst'
          (CspInv_dinsert_fresh st0 csp st k (storeGet st b) hinv ⟨ext, hext⟩)
        refine ⟨?_, ?_, ?_, hD⟩
        · obtain ⟨ext2, hext2⟩ := hA
          exact ⟨[storeGet st b] ++ ext2, by rw [hext2, List.append_assoc]⟩
        · intro k' hk'
          have h1 : k' ≠ k := fun e => hk' (e ▸ List.mem_cons_self k ks)
          rw [hB k' (fun h => hk' (List.mem_cons_of_mem _ h)),
            dlookup_dinsert_ne _ _ _ _ h1]
        · intro k' hk'
          rcases List.mem_cons.mp hk' with rfl | hk'
          · rw [hB k' hnd.1, dlookup_dinsert_self, hv]
            obtain ⟨ext2, hext2⟩ := hA
            have hget : storeGet ((st ++ [storeGet st b]) ++ ext2) st.length =
                storeGet st b := by
              rw [storeGet_append_lt _ ext2 st.length (by simp),
                storeGet_append_self st _ []]
            simp only [Option.map_some', seqToks, toksOf]
            rw [hext2, hget, hcell]
          · exact hC k' hk'

theorem mergeBase_spec (st0 : Store) (cfgD repD : List (String × Option PyVal))
    (hcfg : mapAddrsOk st0 cfgD = true) (hrep : mapAddrsOk st0 repD = true) :
    (∃ ext, (mergeBase st0 cfgD repD).2 = st0 ++ ext) ∧
    (∀ k, (dlookup (mergeBase st0 cfgD repD).1 k).map
        (seqToks (mergeBase st0 cfgD repD).2) =
      (baseSel cfgD repD k).map (toksOf st0)) ∧
    CspInv st0 (mergeBase st0 cfgD repD).1 (mergeBase st0 cfgD repD).2 := by
  obtain ⟨hA, hB, hC, hD⟩ := mergeFold_spec cfgD repD st0 hcfg hrep
    (dedupKeys (dkeys cfgD ++ dkeys repD)) [] st0
    (nodup_dedupKeys _) (fun k _ => rfl) ⟨[], by simp⟩
    ⟨by simp [dkeys], by simp, by simp⟩
  rw [mergeBase]
  refine ⟨hA, ?_, hD⟩
  intro k
  by_cases hm : k ∈ dedupKeys (dkeys cfgD ++ dkeys repD)
  · exact hC k hm
  · rw [hB k hm]
    rw [mem_dedupKeys] at hm
    have h1 : dlookup repD k = none := by
      rw [dlookup_eq_none_iff]
      exact fun h => hm (List.mem_append.mpr (Or.inr h))
    have h2 : dlookup cfgD k = none := by
      rw [dlookup_eq_none_iff]
      exact fun h => hm (List.mem_append.mpr (Or.inl h))
    rw [baseSel, h1, h2]
    rfl

theorem mergeUpd_none_right : ∀ x : Option (List Tok), mergeUpd x none = x
  | none => rfl
  | some _ => rfl

theorem normNoCopy_lst {pv : PyVal} {a : Nat}
    (h : normNoCopy pv = SeqVal.lst a) : pv = PyVal.lst a := by
  cases pv with
  | scalar t => simp [normNoCopy] at h
  | tup ts => simp [normNoCopy] at h
  | lst b => simpa [normNoCopy] using h

theorem seqToks_normNoCopy (st0 st ext : Store) (hext : st = st0 ++ ext)
    (pv : PyVal) (h : valAddrOk st0 (some pv) = true) :
    seqToks st (normNoCopy pv) = toksOf st0 pv := by
  cases pv with
  | scalar t => rfl
  | tup ts => rfl
  | lst a =>
    have ha : a < st0.length := by simpa [valAddrOk] using h
    simp only [normNoCopy, seqToks, toksOf]
    rw [hext, storeGet_append_lt st0 ext a ha]

theorem updateStep_none (csp : List (String × SeqVal)) (st : Store)
    (k0 : String) : updateStep (csp, st) (k0, none) = (csp, st) := rfl

theorem updateStep_some (csp : List (String × SeqVal)) (st : Store)
    (k0 : String) (pv : PyVal) :
    updateStep (csp, st) (k0, some pv) =
      match dlookup csp k0 with
      | none => (dinsert csp k0 (normNoCopy pv), st)
      | some (.tup ts) =>
        (dinsert csp k0 (.tup (ts ++ seqToks st (normNoCopy pv))), st)
      | some (.lst a) =>
        (csp, storeSet st a (storeGet st a ++ seqToks st (normNoCopy pv))) := rfl

theorem updateFold_spec (st0 : Store) :
    ∀ (updD : List (String × Option PyVal)) (csp : List (String × SeqVal))
    (st : Store),
    (dkeys updD).Nodup →
    mapAddrsOk st0 updD = true →
    (∃ ext, st = st0 ++ ext) →
    (dkeys csp).Nodup →
    (∀ kv ∈ csp, ∀ a, kv.2 = SeqVal.lst a → a < st.length) →
    (∀ kv ∈ csp, ∀ kv' ∈ csp, ∀ a, kv.2 = SeqVal.lst a →
      kv'.2 = SeqVal.lst a → st0.length ≤ a → kv = kv') →
    (∀ kv ∈ csp, ∀ a, kv.2 = SeqVal.lst a → a < st0.length →
      kv.1 ∉ dkeys updD) →
    (∃ ext, (applyUpdate csp st updD).2 = st0 ++ ext) ∧
    (dkeys (applyUpdate csp st updD).1).Nodup ∧
    (∀ k, (dlookup (applyUpdate csp st updD).1 k).map
        (seqToks (applyUpdate csp st updD).2) =
      mergeUpd ((dlookup csp k).map (seqToks st))
        ((updVal updD k).map (toksOf st0))) := by
  intro updD
  induction updD with
  | nil =>
    intro csp st _ _ hst hcnd _ _ _
    refine ⟨hst, hcnd, fun k => ?_⟩
    have : updVal [] k = none := rfl
    rw [this]
    simp only [Option.map_none']
    rw [mergeUpd_none_right]
    rfl
  | cons kv rest ih =>
    intro csp st hnd haddr hst hcnd hbound hinj hlow
    obtain ⟨k0, v0⟩ := kv
    rw [applyUpdate_cons]
    simp only [dkeys, List.map_cons, List.nodup_cons] at hnd
    have haddr0 : valAddrOk st0 v0 = true := by
      rw [mapAddrsOk, List.all_eq_true] at haddr
      exact haddr _ (List.mem_cons_self _ _)
    have haddrR : mapAddrsOk st0 rest = true := by
      rw [mapAddrsOk, List.all_eq_true] at haddr ⊢
      exact fun kv hm => haddr kv (List.mem_cons_of_mem _ hm)
    have hlowR : ∀ kv ∈ csp, ∀ a, kv.2 = SeqVal.lst a → a < st0.length →
        kv.1 ∉ dkeys rest := by
      intro x hx a ha hlt hm
      exact hlow x hx a ha hlt (by
        simp only [dkeys, List.map_cons, List.mem_cons]
        exact Or.inr hm)
    have hupdcons : ∀ k, k ≠ k0 →
        updVal ((k0, v0) :: rest) k = updVal rest k := by
      intro k hk
      rw [updVal, updVal, dlookup, if_neg (fun e => hk e.symm)]
    have hupdself : updVal ((k0, v0) :: rest) k0 = v0 := by
      rw [updVal, dlookup, if_pos rfl]
      rfl
    have hrest0 : updVal rest k0 = none := by
      rw [updVal]
      have : dlookup rest k0 = none := by
        rw [dlookup_eq_none_iff]
        exact hnd.1
      rw [this]
      rfl
    cases v0 with
    | none =>
      rw [updateStep_none]
      obtain ⟨hA, hB, hC⟩ := ih csp st hnd.2 haddrR hst hcnd hbound hinj hlowR
      refine ⟨hA, hB, fun k => ?_⟩
      by_cases hk : k = k0
      · subst hk
        rw [hC k, hrest0, hupdself]
      · rw [hC k, hupdcons k hk]
    | some pv =>
      rw [updateStep_some]
      obtain ⟨ext, hext⟩ := hst
      cases hl : dlookup csp k0 with
      | none =>
        have hfr : ∀ x ∈ dinsert csp k0 (normNoCopy pv), ∀ a,
            x.2 = SeqVal.lst a → a < st.length := by
          intro x hx a ha
          rcases mem_dinsert hx with rfl | hx
          · have := normNoCopy_lst ha
            subst this
            have : a < st0.length := by simpa [valAddrOk] using haddr0
            calc a < st0.length := this
              _ ≤ st.length := by rw [hext]; simp
          · exact hbound x hx a ha
        have hinj' : ∀ x ∈ dinsert csp k0 (normNoCopy pv),
            ∀ x' ∈ dinsert csp k0 (normNoCopy pv), ∀ a,
            x.2 = SeqVal.lst a → x'.2 = SeqVal.lst a → st0.length ≤ a →
            x = x' := by
          intro x hx x' hx' a ha ha' hge
          rcases mem_dinsert hx with rfl | hx
          · have := normNoCopy_lst ha
            subst this
            have : a < st0.length := by simpa [valAddrOk] using haddr0
            omega
          · rcases mem_dinsert hx' with rfl | hx'
            · have := normNoCopy_lst ha'
              subst this
              have : a < st0.length := by simpa [valAddrOk] using haddr0
              omega
            · exact hinj x hx x' hx' a ha ha' hge
        have hlow' : ∀ x ∈ dinsert csp k0 (normNoCopy pv), ∀ a,
            x.2 = SeqVal.lst a → a < st0.length → x.1 ∉ dkeys rest := by
          intro x hx a ha hlt
          rcases mem_dinsert hx with rfl | hx
          · exact hnd.1
          · exact hlowR x hx a ha hlt
        obtain ⟨hA, hB, hC⟩ := ih _ st hnd.2 haddrR ⟨ext, hext⟩
          (nodup_dkeys_dinsert csp k0 _ hcnd) hfr hinj' hlow'
        refine ⟨hA, hB, fun k => ?_⟩
        by_cases hk : k = k0
        · subst hk
          rw [hC k, hrest0, hupdself, dlookup_dinsert_self, hl]
          simp only [Option.map_some', Option.map_none']
          rw [mergeUpd_none_right,
            seqToks_normNoCopy st0 st ext hext pv haddr0]
          rfl
        · rw [hC k, hupdcons k hk, dlookup_dinsert_ne _ _ _ _ hk]
      | some sv =>
        cases sv with
        | tup ts =>
          have hfr : ∀ x ∈ dinsert csp k0
              (SeqVal.tup (ts ++ seqToks st (normNoCopy pv))), ∀ a,
              x.2 = SeqVal.lst a → a < st.length := by
            intro x hx a ha
            rcases mem_dinsert hx with rfl | hx
            · simp at ha
            · exact hbound x hx a ha
          have hinj' : ∀ x ∈ dinsert csp k0
              (SeqVal.tup (ts ++ seqToks st (normNoCopy pv))),
              ∀ x' ∈ dinsert csp k0
              (SeqVal.tup (ts ++ seqToks st (normNoCopy pv))), ∀ a,
              x.2 = SeqVal.lst a → x'.2 = SeqVal.lst a → st0.length ≤ a →
              x = x' := by
            intro x hx x' hx' a ha ha' hge
            rcases mem_dinsert hx with rfl | hx
            · simp at ha
            · rcases mem_dinsert hx' with rfl | hx'
              · simp at ha'
              · exact hinj x hx x' hx' a ha ha' hge
          have hlow' : ∀ x ∈ dinsert csp k0
              (SeqVal.tup (ts ++ seqToks st (normNoCopy pv))), ∀ a,
              x.2 = SeqVal.lst a → a < st0.length → x.1 ∉ dkeys rest := by
            intro x hx a ha hlt
            rcases mem_dinsert hx with rfl | hx
            · simp at ha
            · exact hlowR x hx a ha hlt
          obtain ⟨hA, hB, hC⟩ := ih _ st hnd.2 haddrR ⟨ext, hext⟩
            (nodup_dkeys_dinsert csp k0 _ hcnd) hfr hinj' hlow'
          refine ⟨hA, hB, fun k => ?_⟩
          by_cases hk : k = k0
          · subst hk
            rw [hC k, hrest0, hupdself, dlookup_dinsert_self, hl]
            simp only [Option.map_some', Option.map_none']
            rw [mergeUpd_none_right,
              seqToks_normNoCopy st0 st ext hext pv haddr0]
            rfl
          · rw [hC k, hupdcons k hk, dlookup_dinsert_ne _ _ _ _ hk]
        | lst a =>
          have hmem : (k0, SeqVal.lst a) ∈ csp := mem_of_dlookup hl
          have hge : st0.length ≤ a := by
            by_contra hlt
            push_neg at hlt
            exact hlow _ hmem a rfl hlt (by
              simp [dkeys])
          have halt : a < st.length := hbound _ hmem a rfl
          have hset : storeSet st a (storeGet st a ++ seqToks st (normNoCopy pv)) =
              st0 ++ storeSet ext (a - st0.length)
                (storeGet st a ++ seqToks st (normNoCopy pv)) := by
            rw [hext, storeSet_append_ge st0 ext a _ hge]
          have hbound' : ∀ x ∈ csp, ∀ b, x.2 = SeqVal.lst b →
              b < (storeSet st a (storeGet st a ++ seqToks st (normNoCopy pv))).length := by
            intro x hx b hb
            rw [storeSet_length]
            exact hbound x hx b hb
          obtain ⟨hA, hB, hC⟩ := ih csp _ hnd.2 haddrR ⟨_, hset⟩
            hcnd hbound' hinj hlowR
          refine ⟨hA, hB, fun kk => ?_⟩
          by_cases hk : kk = k0
          · subst hk
            have hx := seqToks_normNoCopy st0 st ext hext pv haddr0
            rw [hC kk, hrest0, hupdself, hl]
            simp only [Option.map_some', Option.map_none']
            rw [mergeUpd_none_right]
            show some (storeGet (storeSet st a
              (storeGet st a ++ seqToks st (normNoCopy pv))) a) = _
            rw [storeGet_storeSet_self st a _ halt, hx]
            rfl
          · rw [hC kk, hupdcons kk hk]
            congr 1
            cases hlk : dlookup csp kk with
            | none => rfl
            | some sv' =>
              cases sv' with
              | tup ts' => rfl
              | lst a' =>
                have hmem' : (kk, SeqVal.lst a') ∈ csp := mem_of_dlookup hlk
                have hne : a' ≠ a := by
                  intro e
                  subst e
                  have h2 := hinj _ hmem' _ hmem _ rfl rfl hge
                  exact hk (congrArg Prod.fst h2)
                simp only [Option.map_some', seqToks]
                rw [storeGet_storeSet_ne st a a' _ (fun e => hne e.symm)]

/-- Correctness of the two merge loops together: `csp["DIRECTIVES"]`
maps each key to exactly the tokens predicted by `mergedToks`
(replace-over-base selection, update tokens appended), its keys are
distinct, and the store is only extended. -/
theorem mergedCsp_spec (st0 : Store) (cfg : Config)
    (upd rep : List (String × Option PyVal))
    (hnd : (dkeys upd).Nodup)
    (hcfg : mapAddrsOk st0 cfg.DIRECTIVES = true)
    (hrep : mapAddrsOk st0 rep = true)
    (hupd : mapAddrsOk st0 upd = true) :
    (∀ k, (dlookup (mergedCsp st0 cfg upd rep).1 k).map
        (seqToks (mergedCsp st0 cfg upd rep).2) =
      mergedToks st0 cfg.DIRECTIVES rep upd k) ∧
    (dkeys (mergedCsp st0 cfg upd rep).1).Nodup ∧
    (∃ ext, (mergedCsp st0 cfg upd rep).2 = st0 ++ ext) := by
  obtain ⟨hmbext, hmbchar, hmbinv⟩ := mergeBase_spec st0 cfg.DIRECTIVES rep hcfg hrep
  obtain ⟨huext, hunodup, huchar⟩ := updateFold_spec st0 upd
    (mergeBase st0 cfg.DIRECTIVES rep).1 (mergeBase st0 cfg.DIRECTIVES rep).2
    hnd hupd hmbext hmbinv.1
    (fun kv hm a ha => (hmbinv.2.1 kv hm a ha).2)
    (fun kv hm kv' hm' a ha ha' _ => hmbinv.2.2 kv hm kv' hm' a ha ha')
    (fun kv hm a ha hlt => absurd (hmbinv.2.1 kv hm a ha).1 (by omega))
  refine ⟨fun k => ?_, hunodup, huext⟩
  rw [mergedCsp, huchar k, hmbchar k, mergedToks]

/-! ### Serialization, report-uri and nonce lemmas -/

theorem buildParts_fold (st : Store) : ∀ (csp : List (String × SeqVal))
    (parts0 : List (String × String)),
    (∀ kv ∈ csp, serializeOne st kv.2 ≠ none) →
    (dkeys csp).Nodup →
    ∃ parts, csp.foldl (partsStep st) (some parts0) = some parts ∧
      ∀ k, dlookup parts k =
        match dlookup csp k with
        | none => dlookup parts0 k
        | some v =>
          match serializeOne st v with
          | some (some s) => some s
          | _ => dlookup parts0 k := by
  intro csp
  induction csp with
  | nil =>
    intro parts0 _ _
    exact ⟨parts0, rfl, fun k => rfl⟩
  | cons kv rest ih =>
    intro parts0 hok hnd
    obtain ⟨k0, v0⟩ := kv
    simp only [dkeys, List.map_cons, List.nodup_cons] at hnd
    have hok0 : serializeOne st v0 ≠ none := hok _ (List.mem_cons_self _ _)
    have hokR : ∀ kv ∈ rest, serializeOne st kv.2 ≠ none :=
      fun kv hm => hok kv (List.mem_cons_of_mem _ hm)
    rw [List.foldl_cons]
    cases hs : serializeOne st v0 with
    | none => exact absurd hs hok0
    | some so =>
      cases so with
      | none =>
        have hstep : partsStep st (some parts0) (k0, v0) = some parts0 := by
          rw [partsStep, hs]
        rw [hstep]
        obtain ⟨parts, hp, hchar⟩ := ih parts0 hokR hnd.2
        refine ⟨parts, hp, fun k => ?_⟩
        by_cases hk : k0 = k
        · subst hk
          have hr : dlookup rest k0 = none := by
            rw [dlookup_eq_none_iff]
            exact hnd.1
          rw [hchar k0, hr, dlookup, if_pos rfl]
          simp [hs]
        · rw [hchar k, dlookup, if_neg hk]
      | some s =>
        have hstep : partsStep st (some parts0) (k0, v0) =
            some (dinsert parts0 k0 s) := by
          rw [partsStep, hs]
        rw [hstep]
        obtain ⟨parts, hp, hchar⟩ := ih (dinsert parts0 k0 s) hokR hnd.2
        refine ⟨parts, hp, fun k => ?_⟩
        by_cases hk : k0 = k
        · subst hk
          have hr : dlookup rest k0 = none := by
            rw [dlookup_eq_none_iff]
            exact hnd.1
          rw [hchar k0, hr, dlookup, if_pos rfl]
          simp [hs, dlookup_dinsert_self]
        · rw [hchar k, dlookup, if_neg hk]
          cases hlk : dlookup rest k with
          | none =>
            simp only [hlk]
            rw [dlookup_dinsert_ne _ _ _ _ (fun e => hk e.symm)]
          | some v =>
            simp only [hlk]
            cases hsv : serializeOne st v with
            | none =>
              simp [hsv, dlookup_dinsert_ne _ _ _ _ (fun e => hk e.symm)]
            | some so' =>
              cases so' with
              | none =>
                simp [hsv, dlookup_dinsert_ne _ _ _ _ (fun e => hk e.symm)]
              | some s' => simp [hsv]

/-- `buildParts` characterization from an empty `policy_parts`. -/
theorem buildParts_spec (st : Store) (csp : List (String × SeqVal))
    (hok : ∀ kv ∈ csp, serializeOne st kv.2 ≠ none)
    (hnd : (dkeys csp).Nodup) :
    ∃ parts, buildParts st csp = some parts ∧
      ∀ k, dlookup parts k =
        match dlookup csp k with
        | none => none
        | some v =>
          match serializeOne st v with
          | some (some s) => some s
          | _ => none := by
  obtain ⟨parts, hp, hchar⟩ := buildParts_fold st csp [] hok hnd
  refine ⟨parts, hp, fun k => ?_⟩
  rw [hchar k]
  cases dlookup csp k with
  | none => rfl
  | some v =>
    cases serializeOne st v with
    | none => rfl
    | some so => cases so <;> rfl

theorem appendReportUri_lookup_ne (st : Store) (ru : Option SeqVal)
    (parts : List (String × String)) (k : String) (hk : k ≠ "report-uri") :
    dlookup (appendReportUri st ru parts) k = dlookup parts k := by
  cases ru with
  | none => rfl
  | some v =>
    rw [appendReportUri]
    by_cases he : (seqToks st v).isEmpty
    · rw [if_pos he]
    · rw [if_neg he, dlookup_dinsert_ne _ _ _ _ hk]

theorem appendReportUri_append (st : Store) (v : SeqVal)
    (parts : List (String × String)) (hne : (seqToks st v).isEmpty = false)
    (hnm : "report-uri" ∉ dkeys parts) :
    appendReportUri st (some v) parts =
      parts ++ [("report-uri",
        String.intercalate " " ((seqToks st v).map forceStr))] := by
  rw [appendReportUri, if_neg (by rw [hne]; exact fun h => nomatch h)]
  exact dinsert_of_not_mem parts _ _ hnm

theorem injectNonce_lookup_not_mem (n : String) :
    ∀ (sections : List String) (parts : List (String × String)) (k : String),
    k ∉ sections →
    dlookup (injectNonce parts sections n) k = dlookup parts k := by
  intro sections
  induction sections with
  | nil => intro parts k _; rfl
  | cons sec rest ih =>
    intro parts k hk
    rw [injectNonce, List.foldl_cons]
    have h1 : k ≠ sec := fun e => hk (e ▸ List.mem_cons_self _ _)
    have h2 : k ∉ rest := fun h => hk (List.mem_cons_of_mem _ h)
    rw [show (rest.foldl _ _ : List (String × String)) =
      injectNonce (dinsert parts sec
        (pyStrip (((dlookup parts sec).getD "") ++ " 'nonce-" ++ n ++ "'"))) rest n
      from rfl]
    rw [ih _ k h2, dlookup_dinsert_ne _ _ _ _ h1]

theorem injectNonce_keys_of_mem (n : String) :
    ∀ (sections : List String) (parts : List (String × String)),
    (∀ sec ∈ sections, sec ∈ dkeys parts) →
    dkeys (injectNonce parts sections n) = dkeys parts := by
  intro sections
  induction sections with
  | nil => intro parts _; rfl
  | cons sec rest ih =>
    intro parts hmem
    rw [injectNonce, List.foldl_cons]
    have h0 : sec ∈ dkeys parts := hmem sec (List.mem_cons_self _ _)
    have hkeys : dkeys (dinsert parts sec
        (pyStrip (((dlookup parts sec).getD "") ++ " 'nonce-" ++ n ++ "'"))) =
        dkeys parts := dkeys_dinsert_of_mem parts sec _ h0
    rw [show (rest.foldl _ _ : List (String × String)) =
      injectNonce (dinsert parts sec
        (pyStrip (((dlookup parts sec).getD "") ++ " 'nonce-" ++ n ++ "'"))) rest n
      from rfl]
    rw [ih _ (fun s hs => hkeys ▸ hmem s (List.mem_cons_of_mem _ hs)), hkeys]

theorem injectNonce_single (parts : List (String × String)) (sec n : String) :
    injectNonce parts [sec] n =
      dinsert parts sec
        (pyStrip (((dlookup parts sec).getD "") ++ " 'nonce-" ++ n ++ "'")) := rfl

theorem foldl_partsStep_none (st : Store) :
    ∀ csp : List (String × SeqVal), csp.foldl (partsStep st) none = none := by
  intro csp
  induction csp with
  | nil => rfl
  | cons kv rest ih => rw [List.foldl_cons]; exact ih

theorem buildParts_success_ok (st : Store) :
    ∀ (csp : List (String × SeqVal)) (parts0 parts : List (String × String)),
    csp.foldl (partsStep st) (some parts0) = some parts →
    ∀ kv ∈ csp, serializeOne st kv.2 ≠ none := by
  intro csp
  induction csp with
  | nil => intro _ _ _ kv hm; simp at hm
  | cons kv0 rest ih =>
    intro parts0 parts h kv hm
    rw [List.foldl_cons] at h
    cases hs : serializeOne st kv0.2 with
    | none =>
      have hstep : partsStep st (some parts0) kv0 = none := by
        rw [partsStep, hs]
      rw [hstep, foldl_partsStep_none] at h
      exact absurd h (by simp)
    | some so =>
      rcases List.mem_cons.mp hm with rfl | hm
      · rw [hs]; exact fun h' => nomatch h'
      · cases so with
        | none =>
          have hstep : partsStep st (some parts0) kv0 = some parts0 := by
            rw [partsStep, hs]
          rw [hstep] at h
          exact ih parts0 parts h kv hm
        | some s =>
          have hstep : partsStep st (some parts0) kv0 =
              some (dinsert parts0 kv0.1 s) := by
            rw [partsStep, hs]
          rw [hstep] at h
          exact ih _ parts h kv hm

/-- Characterization of a successful `policy_parts` loop. -/
theorem buildParts_char (st : Store) (csp : List (String × SeqVal))
    (parts : List (String × String)) (h : buildParts st csp = some parts)
    (hnd : (dkeys csp).Nodup) :
    ∀ k, dlookup parts k =
      match dlookup csp k with
      | none => none
      | some v =>
        match serializeOne st v with
        | some (some s) => some s
        | _ => none := by
  have hok := buildParts_success_ok st csp [] parts h
  obtain ⟨parts', hp', hchar⟩ := buildParts_fold st csp [] hok hnd
  rw [buildParts] at h
  rw [h] at hp'
  obtain rfl : parts = parts' := by injection hp'
  intro k
  rw [hchar k]
  cases dlookup csp k with
  | none => rfl
  | some v =>
    cases serializeOne st v with
    | none => rfl
    | some so => cases so <;> rfl

theorem dlookup_of_mem_nodup {α : Type} {d : List (String × α)} {k : String}
    {v : α} (h : (k, v) ∈ d) (hnd : (dkeys d).Nodup) : dlookup d k = some v := by
  induction d with
  | nil => simp at h
  | cons kv rest ih =>
    obtain ⟨k0, v0⟩ := kv
    simp only [dkeys, List.map_cons, List.nodup_cons] at hnd
    rcases List.mem_cons.mp h with he | hm
    · obtain ⟨rfl, rfl⟩ : k0 = k ∧ v0 = v := by
        constructor
        · exact (congrArg Prod.fst he).symm
        · exact (congrArg Prod.snd he).symm
      rw [dlookup, if_pos rfl]
    · by_cases hk : k0 = k
      · subst hk
        exact absurd (List.mem_map.mpr ⟨(k0, v), hm, rfl⟩) hnd.1
      · rw [dlookup, if_neg hk]
        exact ih hm hnd.2

theorem mem_dkeys_dinsert_elim {α : Type} {d : List (String × α)}
    {k k' : String} {v : α} (h : k' ∈ dkeys (dinsert d k v)) :
    k' = k ∨ k' ∈ dkeys d := by
  rw [dkeys, List.mem_map] at h
  obtain ⟨kv, hm, rfl⟩ := h
  rcases mem_dinsert hm with rfl | hm
  · exact Or.inl rfl
  · exact Or.inr (List.mem_map.mpr ⟨kv, hm, rfl⟩)

theorem serializeOne_of_all_str (st : Store) (v : SeqVal)
    (h : (seqToks st v).all isStrTok = true) : serializeOne st v ≠ none := by
  rw [serializeOne]
  cases hts : seqToks st v with
  | nil => simp [joinToks]
  | cons t rest =>
    rw [hts] at h
    rw [List.all_cons, Bool.and_eq_true] at h
    have ht : isStrTok t = true := h.1
    have hr : rest.all isStrTok = true := h.2
    cases t with
    | str s =>
      have hj : joinToks (Tok.str s :: rest) =
          some (String.intercalate " " ((Tok.str s :: rest).map forceStr)) := by
        rw [joinToks, if_pos]
        rw [List.all_cons, Bool.and_eq_true]
        exact ⟨rfl, hr⟩
      show Option.map some (joinToks (Tok.str s :: rest)) ≠ none
      rw [hj]
      exact fun h' => nomatch h'
    | bool b => simp [isStrTok] at ht
    | int n => simp [isStrTok] at ht

theorem finalParts_fst_eq (st : Store) (cfg : Config)
    (upd rep : List (String × Option PyVal)) (nonce : Option String) :
    (finalParts st cfg upd rep nonce).1 =
      (partsBeforeNonce st cfg upd rep).map (fun parts1 =>
        match nonce with
        | none => parts1
        | some n =>
          if n = "" then parts1
          else injectNonce parts1 (cfg.INCLUDE_NONCE_IN.getD ["default-src"]) n) := by
  simp only [finalParts, partsBeforeNonce]
  cases buildParts (mergedCsp st cfg upd rep).2
      (dpop (mergedCsp st cfg upd rep).1 "report-uri").2 with
  | none => rfl
  | some parts => rfl

theorem build_policy_fst (st : Store) (cfg : Config)
    (upd rep : List (String × Option PyVal)) (nonce : Option String) :
    (build_policy st cfg upd rep nonce).1 =
      (finalParts st cfg upd rep nonce).1.map joinParts := rfl

theorem dkeys_getLast_pair (p2 : List (String × String)) (k : String)
    (h : (dkeys p2).getLast? = some k) : ∃ v, p2.getLast? = some (k, v) := by
  rw [dkeys, List.getLast?_map] at h
  cases hl : p2.getLast? with
  | none => rw [hl] at h; simp at h
  | some kv =>
    rw [hl] at h
    simp only [Option.map_some'] at h
    obtain ⟨k0, v0⟩ := kv
    injection h with h2
    have h3 : k0 = k := h2
    subst h3
    exact ⟨v0, rfl⟩

/-! ### Regex-matcher lemmas -/

theorem lastOccBelow_spec (pat l : List Char) : ∀ (n : Nat),
    (∀ r, lastOccBelow pat l n = some r →
      isSubAt pat l r = true ∧
        ∀ j, r < j → j < n → isSubAt pat l j = false) ∧
    (lastOccBelow pat l n = none →
      ∀ j, j < n → isSubAt pat l j = false) := by
  intro n
  induction n with
  | zero =>
    constructor
    · intro r h
      simp [lastOccBelow] at h
    · intro _ j hj
      omega
  | succ n ih =>
    constructor
    · intro r h
      rw [lastOccBelow] at h
      cases hn : isSubAt pat l n with
      | true =>
        rw [if_pos hn] at h
        injection h with h2
        subst h2
        exact ⟨hn, fun j hj hjn => by omega⟩
      | false =>
        rw [if_neg (by rw [hn]; exact fun hc => nomatch hc)] at h
        obtain ⟨h1, h2⟩ := ih.1 r h
        refine ⟨h1, fun j hj hjn => ?_⟩
        by_cases hje : j = n
        · subst hje; exact hn
        · exact h2 j hj (by omega)
    · intro h j hj
      rw [lastOccBelow] at h
      cases hn : isSubAt pat l n with
      | true =>
        rw [if_pos hn] at h
        exact absurd h (by simp)
      | false =>
        rw [if_neg (by rw [hn]; exact fun hc => nomatch hc)] at h
        by_cases hje : j = n
        · subst hje; exact hn
        · exact ih.2 h j (by omega)

theorem isSubAt_of_ge (pat l : List Char) (hpat : pat ≠ []) (j : Nat)
    (hj : l.length ≤ j) : isSubAt pat l j = false := by
  rw [isSubAt, List.drop_eq_nil_of_le hj]
  cases pat with
  | nil => exact absurd rfl hpat
  | cons c cs => rfl

/-- A successful `scriptMatch` closes at the last occurrence of
`</script>` in the whole string. -/
theorem scriptMatch_inv (l : List Char) (q r : Nat)
    (h : scriptMatch l = some (q, r)) :
    lastOccBelow closeTag l l.length = some r := by
  rw [scriptMatch] at h
  cases hfo : firstOcc openTag l with
  | none => rw [hfo] at h; exact nomatch h
  | some p =>
    rw [hfo] at h
    cases hlo : lastOccBelow closeTag l l.length with
    | none => rw [hlo] at h; exact nomatch h
    | some r' =>
      rw [hlo] at h
      have h' : (match scanFirst (fun qq => decide (l.getD qq ' ' = '>') &&
            decide (qq + 2 ≤ r')) (p + 7) l.length with
          | none => (none : Option (Nat × Nat))
          | some q2 => some (q2, r')) = some (q, r) := h
      cases hsf : scanFirst
          (fun qq => decide (l.getD qq ' ' = '>') &&
            decide (qq + 2 ≤ r')) (p + 7) l.length with
      | none => rw [hsf] at h'; exact nomatch h'
      | some q' =>
        rw [hsf] at h'
        have h2 : (some (q', r') : Option (Nat × Nat)) = some (q, r) := h'
        injection h2 with h3
        exact congrArg some (congrArg Prod.snd h3)

/-! ### Claim theorems -/

/-- C6: `build_policy` never mutates its `config` argument (nor any
token sequence the caller shares with it): the store after the call
extends the input store, so every list cell that existed before the
call — in particular every sequence reachable from `config`, `update`
or `replace` — holds exactly its old contents.  All merge layers work
on freshly copied cells.  The `Nodup` hypothesis merely states that
`update` is a well-formed Python `dict` (distinct keys). -/
theorem C6_no_mutation (st : Store) (cfg : Config)
    (update replace : List (String × Option PyVal)) (nonce : Option String)
    (h : (dkeys update).Nodup) :
    (∃ ext, (build_policy st cfg update replace nonce).2 = st ++ ext) ∧
    ∀ a, a < st.length →
      storeGet (build_policy st cfg update replace nonce).2 a = storeGet st a := by
  have hmb := mergeBase_extends st cfg.DIRECTIVES replace
  have hext : ∃ ext, (build_policy st cfg update replace nonce).2 = st ++ ext := by
    rw [build_policy_snd, finalParts_snd, mergedCsp]
    exact applyUpdate_extends st update _ _ hmb.1
      (fun kv hm a ha => Or.inl (hmb.2 kv hm a ha)) h
  refine ⟨hext, ?_⟩
  obtain ⟨ext, he⟩ := hext
  intro a ha
  rw [he, storeGet_append_lt st ext a ha]

theorem C6_no_mutation_witness :
    (dkeys [("script-src", some (PyVal.tup [Tok.str "cdn"]))]).Nodup ∧
    ((∃ ext, (build_policy [[Tok.str "'self'"]]
          ⟨[("script-src", some (PyVal.lst 0))], some []⟩
          [("script-src", some (PyVal.tup [Tok.str "cdn"]))] [] none).2 =
        [[Tok.str "'self'"]] ++ ext) ∧
      ∀ a, a < ([[Tok.str "'self'"]] : Store).length →
        storeGet (build_policy [[Tok.str "'self'"]]
          ⟨[("script-src", some (PyVal.lst 0))], some []⟩
          [("script-src", some (PyVal.tup [Tok.str "cdn"]))] [] none).2 a =
        storeGet [[Tok.str "'self'"]] a) :=
  ⟨by decide, C6_no_mutation [[Tok.str "'self'"]]
    ⟨[("script-src", some (PyVal.lst 0))], some []⟩
    [("script-src", some (PyVal.tup [Tok.str "cdn"]))] [] none (by decide)⟩

/-- C8 counterexample: the integer `0` is falsy and is neither the
boolean `False` nor the string `"False"`, so the claim says it renders
nothing; but Python's `0 in [False, "False"]` is true (`0 == False`),
so the code renders ` async=false`. -/
theorem C8_counterexample :
    _async_attr_mapper "async" (some (AttrVal.int 0)) = " async=false" ∧
    (" async=false" : String) ≠ "" := ⟨rfl, by decide⟩

/-- C8 (amended): the fragment is ` async=false` exactly when the value
compares `==`-equal to `False` or to `"False"` — that is, for the
boolean `False`, the integer `0` (since `0 == False` in Python), or the
string `"False"`; otherwise ` async` when truthy; otherwise empty. -/
theorem C8_async_tristate (v : Option AttrVal) :
    _async_attr_mapper "async" v =
      if v = some (AttrVal.bool false) ∨ v = some (AttrVal.int 0) ∨
          v = some (AttrVal.str "False")
      then " async=false"
      else if attrTruthy v then " async" else "" := by
  by_cases h : v = some (AttrVal.bool false) ∨ v = some (AttrVal.int 0) ∨
      v = some (AttrVal.str "False")
  · rw [if_pos h]
    rcases h with rfl | rfl | rfl <;> rfl
  · rw [if_neg h]
    push_neg at h
    have hp : (pyEq v (.bool false) || pyEq v (.str "False")) = false := by
      cases v with
      | none => rfl
      | some av =>
        cases av with
        | bool b =>
          cases b with
          | true => rfl
          | false => exact absurd rfl h.1
        | str s =>
          by_cases hs : s = "False"
          · exact absurd (by rw [hs]) h.2.2
          · simp [pyEq, hs]
        | int n =>
          by_cases hn : n = 0
          · exact absurd (by rw [hn]) h.2.1
          · simp [pyEq, hn]
    simp [_async_attr_mapper, hp]

/-- C9 counterexample: for two consecutive script blocks the extracted
interior does not stop at the first closing `</script>` (which would
give `"a"`); the greedy capture group runs through the last one. -/
theorem C9_counterexample :
    _unwrap_script "<script>a</script><script>b</script>" =
      "a</script><script>b" ∧
    ("a</script><script>b" : String) ≠ "a" := ⟨rfl, by decide⟩

/-- C9 (amended): when the pattern does not match, the content is used
verbatim; when it matches, the interior runs from the first non-greedy
opening-tag match through the *last* closing `</script>` of the whole
string (the capture group `([\s|\S]+)` is greedy), trimmed; in
particular two consecutive script blocks round-trip unchanged through
`build_script_tag`. -/
theorem C9_unwrap_greedy :
    (∀ s : String, scriptMatch s.data = none → _unwrap_script s = s) ∧
    (∀ (s : String) (q r : Nat), scriptMatch s.data = some (q, r) →
      isSubAt closeTag s.data r = true ∧
      (∀ j, r < j → isSubAt closeTag s.data j = false) ∧
      _unwrap_script s =
        String.mk (pyStripList ((s.data.drop (q + 1)).take (r - (q + 1))))) ∧
    build_script_tag (some "<script>a</script><script>b</script>") [] =
      "<script>a</script><script>b</script>" := by
  refine ⟨?_, ?_, rfl⟩
  · intro s h
    rw [_unwrap_script, h]
  · intro s q r h
    have hinv : lastOccBelow closeTag s.data s.data.length = some r :=
      scriptMatch_inv s.data q r h
    obtain ⟨h1, h2⟩ := (lastOccBelow_spec closeTag s.data s.data.length).1 r hinv
    refine ⟨h1, fun j hj => ?_, by rw [_unwrap_script, h]⟩
    by_cases hjl : j < s.data.length
    · exact h2 j hj hjl
    · exact isSubAt_of_ge closeTag s.data (by decide) j (by omega)

theorem C9_unwrap_greedy_witness :
    _unwrap_script "no script here" = "no script here" ∧
    isSubAt closeTag ("<script>a</script><script>b</script>").data 27 = true ∧
    isSubAt closeTag ("<script>a</script><script>b</script>").data 28 = false ∧
    _unwrap_script "<script>a</script><script>b</script>" =
      String.mk (pyStripList
        ((("<script>a</script><script>b</script>").data.drop 8).take 19)) := by
  have hm : scriptMatch ("<script>a</script><script>b</script>").data =
      some (7, 27) := rfl
  have h := C9_unwrap_greedy
  exact ⟨h.1 "no script here" rfl,
    (h.2.1 "<script>a</script><script>b</script>" 7 27 hm).1,
    (h.2.1 "<script>a</script><script>b</script>" 7 27 hm).2.1 28 (by omega),
    (h.2.1 "<script>a</script><script>b</script>" 7 27 hm).2.2⟩

/-- C10: the unwrap pattern requires a nonempty interior, so
`"<script></script>"` is not unwrapped, and `build_script_tag` embeds
the supplied tags verbatim in the body. -/
theorem C10_empty_interior_not_unwrapped :
    _unwrap_script "<script></script>" = "<script></script>" ∧
    build_script_tag (some "<script></script>") [] =
      "<script><script></script></script>" := ⟨rfl, rfl⟩

/-- C5 counterexample: with base `script-src ['self']`, replace
`{script-src: None}` and update `{script-src: ['x']}`, the claim's
"otherwise the base configuration's value" predicts
`script-src 'self' x`; the code discards the base value entirely and
yields `script-src x`. -/
theorem C5_counterexample :
    (build_policy []
        ⟨[("script-src", some (PyVal.tup [Tok.str "'self'"]))], some []⟩
        [("script-src", some (PyVal.tup [Tok.str "x"]))]
        [("script-src", none)] none).1 = some "script-src x" ∧
    ("script-src x" : String) ≠ "script-src 'self' x" := ⟨rfl, by decide⟩

/-- C5 (amended): for every directive name the merged tokens are
`mergedToks`: the replace entry is selected whenever the name is
present in replace — a `None` replace entry deselects the directive
outright, the base value is not consulted — otherwise the base value;
update tokens (when non-None) are appended without removing any,
creating the directive if absent.  The claim's two concrete examples
hold as stated. -/
theorem C5_merge_semantics (st : Store) (cfg : Config)
    (upd rep : List (String × Option PyVal))
    (hnd : (dkeys upd).Nodup)
    (hcfg : mapAddrsOk st cfg.DIRECTIVES = true)
    (hrep : mapAddrsOk st rep = true)
    (hupd : mapAddrsOk st upd = true) :
    (∀ k, (dlookup (mergedCsp st cfg upd rep).1 k).map
        (seqToks (mergedCsp st cfg upd rep).2) =
      mergedToks st cfg.DIRECTIVES rep upd k) ∧
    (build_policy []
        ⟨[("script-src", some (PyVal.tup [Tok.str "'self'"]))], some []⟩
        [("script-src", some (PyVal.tup [Tok.str "cdn.example"]))] [] none).1 =
      some "script-src 'self' cdn.example" ∧
    (build_policy []
        ⟨[("script-src", some (PyVal.tup [Tok.str "'self'"]))], some []⟩
        [("script-src", some (PyVal.tup [Tok.str "extra"]))]
        [("script-src", some (PyVal.tup [Tok.str "other"]))] none).1 =
      some "script-src other extra" :=
  ⟨(mergedCsp_spec st cfg upd rep hnd hcfg hrep hupd).1, rfl, rfl⟩

theorem C5_merge_semantics_witness :
    ((dkeys [("script-src", some (PyVal.tup [Tok.str "u1"]))]).Nodup ∧
      mapAddrsOk []
        [("script-src", some (PyVal.tup [Tok.str "'self'"]))] = true) ∧
    ((∀ k, (dlookup (mergedCsp []
          ⟨[("script-src", some (PyVal.tup [Tok.str "'self'"]))], some []⟩
          [("script-src", some (PyVal.tup [Tok.str "u1"]))] []).1 k).map
        (seqToks (mergedCsp []
          ⟨[("script-src", some (PyVal.tup [Tok.str "'self'"]))], some []⟩
          [("script-src", some (PyVal.tup [Tok.str "u1"]))] []).2) =
      mergedToks [] [("script-src", some (PyVal.tup [Tok.str "'self'"]))] []
        [("script-src", some (PyVal.tup [Tok.str "u1"]))] k) ∧
    (build_policy []
        ⟨[("script-src", some (PyVal.tup [Tok.str "'self'"]))], some []⟩
        [("script-src", some (PyVal.tup [Tok.str "cdn.example"]))] [] none).1 =
      some "script-src 'self' cdn.example" ∧
    (build_policy []
        ⟨[("script-src", some (PyVal.tup [Tok.str "'self'"]))], some []⟩
        [("script-src", some (PyVal.tup [Tok.str "extra"]))]
        [("script-src", some (PyVal.tup [Tok.str "other"]))] none).1 =
      some "script-src other extra") :=
  ⟨⟨by decide, by decide⟩, C5_merge_semantics []
    ⟨[("script-src", some (PyVal.tup [Tok.str "'self'"]))], some []⟩
    [("script-src", some (PyVal.tup [Tok.str "u1"]))] []
    (by decide) (by decide) (by decide) (by decide)⟩

/-- C3 counterexample: a non-string token (the integer 5) in a
directive other than report-uri makes `" ".join` raise `TypeError`
(modelled as `none`): `build_policy` does not return a string for
every input. -/
theorem C3_counterexample :
    (build_policy []
        ⟨[("script-src", some (PyVal.tup [Tok.int 5]))], some []⟩
        [] [] none).1 = none := rfl

/-- C3 (amended): `build_policy` returns a string provided every token
of every non-report-uri directive value in the configuration, replace
and update maps is a string; report-uri tokens may be arbitrary (they
are coerced through `force_str`), scalar values are wrapped as
single-token sequences, and falsy/absent values are skipped.  A
non-string token in any other directive raises `TypeError`. -/
theorem C3_no_raise (st : Store) (cfg : Config)
    (upd rep : List (String × Option PyVal)) (nonce : Option String)
    (hnd : (dkeys upd).Nodup)
    (hcfg : mapAddrsOk st cfg.DIRECTIVES = true)
    (hrep : mapAddrsOk st rep = true)
    (hupd : mapAddrsOk st upd = true)
    (hstr : ∀ kv : String × Option PyVal,
      (kv ∈ cfg.DIRECTIVES ∨ kv ∈ rep ∨ kv ∈ upd) → kv.1 ≠ "report-uri" →
      ∀ pv, kv.2 = some pv → ∀ t ∈ toksOf st pv, isStrTok t = true) :
    (∃ s, (build_policy st cfg upd rep nonce).1 = some s) ∧
    (build_policy []
        ⟨[("script-src", some (PyVal.scalar (Tok.str "x")))], some []⟩
        [] [] none).1 = some "script-src x" ∧
    (build_policy []
        ⟨[("report-uri", some (PyVal.tup [Tok.int 7]))], some []⟩
        [] [] none).1 = some "report-uri 7" := by
  refine ⟨?_, rfl, rfl⟩
  obtain ⟨hchar, hnodup, hext⟩ := mergedCsp_spec st cfg upd rep hnd hcfg hrep hupd
  have hnd2 : (dkeys (dpop (mergedCsp st cfg upd rep).1 "report-uri").2).Nodup :=
    nodup_dkeys_dpop _ _ hnodup
  have hall : ∀ kv ∈ (dpop (mergedCsp st cfg upd rep).1 "report-uri").2,
      serializeOne (mergedCsp st cfg upd rep).2 kv.2 ≠ none := by
    intro kv hm
    obtain ⟨k, v⟩ := kv
    have hlk : dlookup (dpop (mergedCsp st cfg upd rep).1 "report-uri").2 k =
        some v := dlookup_of_mem_nodup hm hnd2
    have hkne : k ≠ "report-uri" := by
      intro e
      subst e
      rw [dlookup_dpop_self _ _ hnodup] at hlk
      exact nomatch hlk
    have hlk1 : dlookup (mergedCsp st cfg upd rep).1 k = some v := by
      rw [← dlookup_dpop_ne _ "report-uri" k hkne]
      exact hlk
    have hv := hchar k
    rw [hlk1] at hv
    have hbase : ∀ pv, baseSel cfg.DIRECTIVES rep k = some pv →
        ∀ t ∈ toksOf st pv, isStrTok t = true := by
      intro pv hpv t ht
      rcases baseSel_mem _ _ _ _ hpv with hmm | hmm
      · exact hstr (k, some pv) (Or.inr (Or.inl hmm)) hkne pv rfl t ht
      · exact hstr (k, some pv) (Or.inl hmm) hkne pv rfl t ht
    have hupdv : ∀ pv, updVal upd k = some pv →
        ∀ t ∈ toksOf st pv, isStrTok t = true := by
      intro pv hpv t ht
      have hq : dlookup upd k = some (some pv) := by
        rw [updVal] at hpv
        cases hq2 : dlookup upd k with
        | none => rw [hq2] at hpv; exact nomatch hpv
        | some vo =>
          rw [hq2] at hpv
          simp only [Option.getD_some] at hpv
          rw [hpv]
      exact hstr (k, some pv) (Or.inr (Or.inr (mem_of_dlookup hq))) hkne pv
        rfl t ht
    apply serializeOne_of_all_str
    rw [List.all_eq_true]
    rw [mergedToks] at hv
    cases hb : baseSel cfg.DIRECTIVES rep k with
    | none =>
      cases hu : updVal upd k with
      | none =>
        rw [hb, hu] at hv
        exact nomatch hv
      | some uv =>
        rw [hb, hu] at hv
        have he : seqToks (mergedCsp st cfg upd rep).2 v = toksOf st uv := by
          injection hv
        rw [he]
        exact fun t ht => hupdv uv hu t ht
    | some bv =>
      cases hu : updVal upd k with
      | none =>
        rw [hb, hu] at hv
        have he : seqToks (mergedCsp st cfg upd rep).2 v = toksOf st bv := by
          injection hv
        rw [he]
        exact fun t ht => hbase bv hb t ht
      | some uv =>
        rw [hb, hu] at hv
        have he : seqToks (mergedCsp st cfg upd rep).2 v =
            toksOf st bv ++ toksOf st uv := by
          injection hv
        rw [he]
        intro t ht
        rcases List.mem_append.mp ht with ht | ht
        · exact hbase bv hb t ht
        · exact hupdv uv hu t ht
  obtain ⟨parts0, hbp, _⟩ := buildParts_spec (mergedCsp st cfg upd rep).2
    (dpop (mergedCsp st cfg upd rep).1 "report-uri").2 hall hnd2
  have hpbn : ∃ p1, partsBeforeNonce st cfg upd rep = some p1 := by
    simp only [partsBeforeNonce]
    rw [hbp]
    exact ⟨_, rfl⟩
  obtain ⟨p1, hp1⟩ := hpbn
  rw [build_policy_fst, finalParts_fst_eq, hp1]
  exact ⟨_, rfl⟩

theorem C3_no_raise_witness :
    ((dkeys ([] : List (String × Option PyVal))).Nodup ∧
      mapAddrsOk []
        [("default-src", some (PyVal.tup [Tok.str "'self'"])),
          ("report-uri", some (PyVal.tup [Tok.int 3]))] = true) ∧
    ((∃ s, (build_policy []
        ⟨[("default-src", some (PyVal.tup [Tok.str "'self'"])),
          ("report-uri", some (PyVal.tup [Tok.int 3]))], some []⟩
        [] [] none).1 = some s) ∧
      (build_policy []
          ⟨[("script-src", some (PyVal.scalar (Tok.str "x")))], some []⟩
          [] [] none).1 = some "script-src x" ∧
      (build_policy []
          ⟨[("report-uri", some (PyVal.tup [Tok.int 7]))], some []⟩
          [] [] none).1 = some "report-uri 7") :=
  ⟨⟨by decide, by decide⟩, C3_no_raise []
    ⟨[("default-src", some (PyVal.tup [Tok.str "'self'"])),
      ("report-uri", some (PyVal.tup [Tok.int 3]))], some []⟩
    [] [] none (by decide) (by decide) (by decide) (by decide)
    (by
      intro kv hm hne pv hpv t ht
      rcases hm with hm | hm | hm
      · rcases List.mem_cons.mp hm with rfl | hm2
        · injection hpv with h
          subst h
          have h2 := List.mem_singleton.mp ht
          subst h2
          rfl
        · rcases List.mem_cons.mp hm2 with rfl | hm3
          · exact absurd rfl hne
          · simp at hm3
      · simp at hm
      · simp at hm)⟩

/-- How the final `policy_parts` answers a lookup for a non-report-uri
key, in terms of the merged directive map (given that nonce injection
does not target the key). -/
theorem finalParts_lookup (st : Store) (cfg : Config)
    (upd rep : List (String × Option PyVal)) (nonce : Option String)
    (k : String) (parts2 : List (String × String))
    (hkne : k ≠ "report-uri")
    (hfp : (finalParts st cfg upd rep nonce).1 = some parts2)
    (hnonce : match nonce with
      | none => True
      | some n => n = "" ∨ k ∉ cfg.INCLUDE_NONCE_IN.getD ["default-src"])
    (hnodup : (dkeys (mergedCsp st cfg upd rep).1).Nodup) :
    dlookup parts2 k =
      match dlookup (mergedCsp st cfg upd rep).1 k with
      | none => none
      | some v =>
        match serializeOne (mergedCsp st cfg upd rep).2 v with
        | some (some s) => some s
        | _ => none := by
  rw [finalParts_fst_eq] at hfp
  obtain ⟨parts1, hp1, hp2⟩ := Option.map_eq_some'.mp hfp
  simp only [partsBeforeNonce] at hp1
  obtain ⟨parts0, hbp, hp1e⟩ := Option.map_eq_some'.mp hp1
  have h12 : dlookup parts2 k = dlookup parts1 k := by
    rw [← hp2]
    cases nonce with
    | none => rfl
    | some n =>
      show dlookup (if n = "" then parts1
        else injectNonce parts1 (cfg.INCLUDE_NONCE_IN.getD ["default-src"]) n)
          k = dlookup parts1 k
      rcases hnonce with hn | hn
      · rw [if_pos hn]
      · by_cases hne : n = ""
        · rw [if_pos hne]
        · rw [if_neg hne]
          exact injectNonce_lookup_not_mem n _ parts1 k hn
  have h01 : dlookup parts1 k = dlookup parts0 k := by
    rw [← hp1e]
    exact appendReportUri_lookup_ne _ _ parts0 k hkne
  have hchar := buildParts_char _ _ _ hbp (nodup_dkeys_dpop _ _ hnodup) k
  rw [h12, h01, hchar, dlookup_dpop_ne _ _ _ hkne]

/-- C2 counterexample: a replace entry `{script-src: None}` is not a
no-op for `script-src`: the base configuration's value is dropped
rather than used, so the two calls differ. -/
theorem C2_counterexample :
    (build_policy []
        ⟨[("script-src", some (PyVal.tup [Tok.str "'self'"]))], some []⟩
        [] [("script-src", none)] none).1 = some "" ∧
    (build_policy []
        ⟨[("script-src", some (PyVal.tup [Tok.str "'self'"]))], some []⟩
        [] [] none).1 = some "script-src 'self'" ∧
    (some "" : Option String) ≠ some "script-src 'self'" :=
  ⟨rfl, rfl, by decide⟩

/-- C2 (amended): a replace entry of `None` REMOVES the directive: the
base configuration's value for `k` is not used, and — unless update
re-adds `k` or nonce injection targets `k` — no fragment for `k`
appears in the final `policy_parts`. -/
theorem C2_replace_none_drops (st : Store) (cfg : Config)
    (upd rep : List (String × Option PyVal)) (nonce : Option String)
    (k : String) (parts2 : List (String × String))
    (hnd : (dkeys upd).Nodup)
    (hcfg : mapAddrsOk st cfg.DIRECTIVES = true)
    (hrep : mapAddrsOk st rep = true)
    (hupd : mapAddrsOk st upd = true)
    (hk : dlookup rep k = some none)
    (hupdk : updVal upd k = none)
    (hfp : (finalParts st cfg upd rep nonce).1 = some parts2)
    (hnonce : match nonce with
      | none => True
      | some n => n = "" ∨ k ∉ cfg.INCLUDE_NONCE_IN.getD ["default-src"]) :
    mergedToks st cfg.DIRECTIVES rep upd k = none ∧
    dlookup parts2 k = none := by
  obtain ⟨hchar, hnodup, _⟩ := mergedCsp_spec st cfg upd rep hnd hcfg hrep hupd
  have hmt : mergedToks st cfg.DIRECTIVES rep upd k = none := by
    rw [mergedToks, baseSel, hk, hupdk]
    rfl
  refine ⟨hmt, ?_⟩
  have hl1 : dlookup (mergedCsp st cfg upd rep).1 k = none := by
    have h := hchar k
    rw [hmt] at h
    exact Option.map_eq_none'.mp h
  by_cases hkr : k = "report-uri"
  · subst hkr
    rw [finalParts_fst_eq] at hfp
    obtain ⟨parts1, hp1, hp2⟩ := Option.map_eq_some'.mp hfp
    simp only [partsBeforeNonce] at hp1
    obtain ⟨parts0, hbp, hp1e⟩ := Option.map_eq_some'.mp hp1
    have h12 : dlookup parts2 "report-uri" = dlookup parts1 "report-uri" := by
      rw [← hp2]
      cases nonce with
      | none => rfl
      | some n =>
        show dlookup (if n = "" then parts1
          else injectNonce parts1 (cfg.INCLUDE_NONCE_IN.getD ["default-src"]) n)
            "report-uri" = dlookup parts1 "report-uri"
        rcases hnonce with hn | hn
        · rw [if_pos hn]
        · by_cases hne : n = ""
          · rw [if_pos hne]
          · rw [if_neg hne]
            exact injectNonce_lookup_not_mem n _ parts1 _ hn
    have hru : (dpop (mergedCsp st cfg upd rep).1 "report-uri").1 = none := by
      rw [dpop_fst]
      exact hl1
    have h01 : parts1 = parts0 := by
      rw [← hp1e, hru]
      rfl
    have hchar2 := buildParts_char _ _ _ hbp (nodup_dkeys_dpop _ _ hnodup)
      "report-uri"
    rw [h12, h01, hchar2, dlookup_dpop_self _ _ hnodup]
  · rw [finalParts_lookup st cfg upd rep nonce k parts2 hkr hfp hnonce hnodup,
      hl1]

theorem C2_replace_none_drops_witness :
    ((dkeys ([] : List (String × Option PyVal))).Nodup ∧
      mapAddrsOk []
        [("script-src", some (PyVal.tup [Tok.str "'self'"]))] = true ∧
      dlookup [("script-src", (none : Option PyVal))] "script-src" =
        some none ∧
      (finalParts []
        ⟨[("script-src", some (PyVal.tup [Tok.str "'self'"]))], some []⟩
        [] [("script-src", none)] none).1 = some []) ∧
    (mergedToks [] [("script-src", some (PyVal.tup [Tok.str "'self'"]))]
        [("script-src", none)] [] "script-src" = none ∧
      dlookup ([] : List (String × String)) "script-src" = none) :=
  ⟨⟨by decide, by decide, by decide, rfl⟩,
    C2_replace_none_drops []
      ⟨[("script-src", some (PyVal.tup [Tok.str "'self'"]))], some []⟩
      [] [("script-src", none)] none "script-src" []
      (by decide) (by decide) (by decide) (by decide) (by decide) (by decide)
      rfl trivial⟩

/-- C7 counterexample: the merged value of `report-uri` here is the
empty sequence, yet no bare `report-uri` fragment is emitted — the
popped empty sequence is falsy and skipped, so the output is empty. -/
theorem C7_counterexample :
    (dlookup (mergedCsp []
        ⟨[("report-uri", some (PyVal.tup []))], some []⟩ [] []).1
        "report-uri").map
      (seqToks (mergedCsp []
        ⟨[("report-uri", some (PyVal.tup []))], some []⟩ [] []).2) =
      some [] ∧
    (build_policy [] ⟨[("report-uri", some (PyVal.tup []))], some []⟩
        [] [] none).1 = some "" ∧
    finalFragments [] ⟨[("report-uri", some (PyVal.tup []))], some []⟩
        [] [] none = some [] :=
  ⟨rfl, rfl, rfl⟩

/-- C7 (amended): for every directive OTHER than report-uri (and a
directive name with no surrounding whitespace, untouched by nonce
injection): an empty merged sequence is emitted as the bare directive
name; a first token `True` likewise; a first token `False` omits the
directive entirely.  `report-uri` itself is special-cased: an empty
(or `False`-first) merged report-uri value is not serialized this way. -/
theorem C7_flag_serialization (st : Store) (cfg : Config)
    (upd rep : List (String × Option PyVal)) (nonce : Option String)
    (k : String) (parts2 : List (String × String))
    (hnd : (dkeys upd).Nodup)
    (hcfg : mapAddrsOk st cfg.DIRECTIVES = true)
    (hrep : mapAddrsOk st rep = true)
    (hupd : mapAddrsOk st upd = true)
    (hkne : k ≠ "report-uri")
    (hks : pyStrip k = k)
    (hfp : (finalParts st cfg upd rep nonce).1 = some parts2)
    (hnonce : match nonce with
      | none => True
      | some n => n = "" ∨ k ∉ cfg.INCLUDE_NONCE_IN.getD ["default-src"]) :
    (mergedToks st cfg.DIRECTIVES rep upd k = some [] →
      dlookup parts2 k = some "" ∧ k ∈ parts2.map fragmentOf) ∧
    (∀ ts, mergedToks st cfg.DIRECTIVES rep upd k =
        some (Tok.bool true :: ts) →
      dlookup parts2 k = some "" ∧ k ∈ parts2.map fragmentOf) ∧
    (∀ ts, mergedToks st cfg.DIRECTIVES rep upd k =
        some (Tok.bool false :: ts) →
      dlookup parts2 k = none) := by
  obtain ⟨hchar, hnodup, _⟩ := mergedCsp_spec st cfg upd rep hnd hcfg hrep hupd
  have hmain := finalParts_lookup st cfg upd rep nonce k parts2 hkne hfp
    hnonce hnodup
  have hfrag : fragmentOf (k, "") = k := by
    rw [fragmentOf]
    have he : (k ++ " " ++ "") = k ++ " " := by
      rw [String.append_assoc]
      rfl
    rw [he, pyStrip_append_space, hks]
  have hmem : dlookup parts2 k = some "" → k ∈ parts2.map fragmentOf := by
    intro h
    exact hfrag ▸ List.mem_map.mpr ⟨(k, ""), mem_of_dlookup h, rfl⟩
  refine ⟨?_, ?_, ?_⟩
  · intro hmt
    have h := hchar k
    rw [hmt] at h
    obtain ⟨v, hv, hts⟩ := Option.map_eq_some'.mp h
    have hs : serializeOne (mergedCsp st cfg upd rep).2 v = some (some "") := by
      rw [serializeOne, hts]
      rfl
    have hmain2 : dlookup parts2 k = some "" := by
      rw [hmain, hv]
      show (match serializeOne (mergedCsp st cfg upd rep).2 v with
        | some (some s) => some s
        | _ => none) = some ""
      rw [hs]
    exact ⟨hmain2, hmem hmain2⟩
  · intro ts hmt
    have h := hchar k
    rw [hmt] at h
    obtain ⟨v, hv, hts⟩ := Option.map_eq_some'.mp h
    have hs : serializeOne (mergedCsp st cfg upd rep).2 v = some (some "") := by
      rw [serializeOne, hts]
    have hmain2 : dlookup parts2 k = some "" := by
      rw [hmain, hv]
      show (match serializeOne (mergedCsp st cfg upd rep).2 v with
        | some (some s) => some s
        | _ => none) = some ""
      rw [hs]
    exact ⟨hmain2, hmem hmain2⟩
  · intro ts hmt
    have h := hchar k
    rw [hmt] at h
    obtain ⟨v, hv, hts⟩ := Option.map_eq_some'.mp h
    have hs : serializeOne (mergedCsp st cfg upd rep).2 v = some none := by
      rw [serializeOne, hts]
    rw [hmain, hv]
    show (match serializeOne (mergedCsp st cfg upd rep).2 v with
      | some (some s) => some s
      | _ => none) = none
    rw [hs]

theorem C7_flag_serialization_witness :
    ((dkeys ([] : List (String × Option PyVal))).Nodup ∧
      mapAddrsOk []
        [("sandbox", some (PyVal.tup [])),
          ("upgrade-insecure-requests", some (PyVal.tup [Tok.bool true])),
          ("block-all-mixed-content", some (PyVal.tup [Tok.bool false]))] =
        true ∧
      pyStrip "sandbox" = "sandbox" ∧
      (finalParts []
        ⟨[("sandbox", some (PyVal.tup [])),
          ("upgrade-insecure-requests", some (PyVal.tup [Tok.bool true])),
          ("block-all-mixed-content", some (PyVal.tup [Tok.bool false]))],
          some []⟩ [] [] none).1 =
        some [("sandbox", ""), ("upgrade-insecure-requests", "")]) ∧
    ((mergedToks [] [("sandbox", some (PyVal.tup [])),
          ("upgrade-insecure-requests", some (PyVal.tup [Tok.bool true])),
          ("block-all-mixed-content", some (PyVal.tup [Tok.bool false]))] []
          [] "sandbox" = some [] →
        dlookup [("sandbox", ""), ("upgrade-insecure-requests", "")]
          "sandbox" = some "" ∧
        "sandbox" ∈ [("sandbox", ""), ("upgrade-insecure-requests", "")].map
          fragmentOf) ∧
      (∀ ts, mergedToks [] [("sandbox", some (PyVal.tup [])),
          ("upgrade-insecure-requests", some (PyVal.tup [Tok.bool true])),
          ("block-all-mixed-content", some (PyVal.tup [Tok.bool false]))] []
          [] "sandbox" = some (Tok.bool true :: ts) →
        dlookup [("sandbox", ""), ("upgrade-insecure-requests", "")]
          "sandbox" = some "" ∧
        "sandbox" ∈ [("sandbox", ""), ("upgrade-insecure-requests", "")].map
          fragmentOf) ∧
      (∀ ts, mergedToks [] [("sandbox", some (PyVal.tup [])),
          ("upgrade-insecure-requests", some (PyVal.tup [Tok.bool true])),
          ("block-all-mixed-content", some (PyVal.tup [Tok.bool false]))] []
          [] "sandbox" = some (Tok.bool false :: ts) →
        dlookup [("sandbox", ""), ("upgrade-insecure-requests", "")]
          "sandbox" = none)) :=
  ⟨⟨by decide, by decide, by decide, rfl⟩,
    C7_flag_serialization []
      ⟨[("sandbox", some (PyVal.tup [])),
        ("upgrade-insecure-requests", some (PyVal.tup [Tok.bool true])),
        ("block-all-mixed-content", some (PyVal.tup [Tok.bool false]))],
        some []⟩ [] [] none "sandbox"
      [("sandbox", ""), ("upgrade-insecure-requests", "")]
      (by decide) (by decide) (by decide) (by decide) (by decide) (by decide)
      rfl trivial⟩

/-- C1 counterexample: report-uri is present and non-empty after
merging, a nonce is supplied, and `INCLUDE_NONCE_IN` names
`default-src`, which has no fragment before injection; the nonce-only
`default-src` fragment is then inserted *after* the report-uri
fragment, so report-uri is not the last fragment of the output. -/
theorem C1_counterexample :
    finalFragments [] ⟨[("report-uri", some (PyVal.tup [Tok.str "u"]))],
        some ["default-src"]⟩ [] [] (some "abc") =
      some ["report-uri u", "default-src 'nonce-abc'"] ∧
    (build_policy [] ⟨[("report-uri", some (PyVal.tup [Tok.str "u"]))],
        some ["default-src"]⟩ [] [] (some "abc")).1 =
      some "report-uri u; default-src 'nonce-abc'" ∧
    (["report-uri u", "default-src 'nonce-abc'"] : List String).getLast? =
      some "default-src 'nonce-abc'" ∧
    ("default-src 'nonce-abc'" : String) ≠ "report-uri u" :=
  ⟨rfl, rfl, rfl, by decide⟩

/-- C1 (amended): if `report-uri` is present with a non-empty token
sequence after merging, its fragment is the last fragment of the
policy string — provided nonce injection does not create a new
fragment (no nonce, an empty nonce, or every directive in
`INCLUDE_NONCE_IN` already has a fragment or is report-uri itself).
When a truthy nonce targets a directive with no prior fragment, that
nonce-only fragment lands after report-uri instead. -/
theorem C1_report_uri_last (st : Store) (cfg : Config)
    (upd rep : List (String × Option PyVal)) (nonce : Option String)
    (ru : SeqVal) (parts0 : List (String × String))
    (hnd : (dkeys upd).Nodup)
    (hcfg : mapAddrsOk st cfg.DIRECTIVES = true)
    (hrep : mapAddrsOk st rep = true)
    (hupd : mapAddrsOk st upd = true)
    (hru : (dpop (mergedCsp st cfg upd rep).1 "report-uri").1 = some ru)
    (hne : (seqToks (mergedCsp st cfg upd rep).2 ru).isEmpty = false)
    (hbp : buildParts (mergedCsp st cfg upd rep).2
        (dpop (mergedCsp st cfg upd rep).1 "report-uri").2 = some parts0)
    (hnonce : match nonce with
      | none => True
      | some n => n = "" ∨
          ∀ sec ∈ cfg.INCLUDE_NONCE_IN.getD ["default-src"],
            sec ∈ dkeys parts0 ∨ sec = "report-uri") :
    ∃ parts2, (finalParts st cfg upd rep nonce).1 = some parts2 ∧
      (dkeys parts2).getLast? = some "report-uri" ∧
      (∃ v, (parts2.map fragmentOf).getLast? =
        some (pyStrip ("report-uri " ++ v))) ∧
      (build_policy st cfg upd rep nonce).1 = some (joinParts parts2) := by
  have hnodup := (mergedCsp_spec st cfg upd rep hnd hcfg hrep hupd).2.1
  have hnm : "report-uri" ∉ dkeys parts0 := by
    have hchar := buildParts_char _ _ _ hbp (nodup_dkeys_dpop _ _ hnodup)
      "report-uri"
    rw [dlookup_dpop_self _ _ hnodup] at hchar
    exact (dlookup_eq_none_iff parts0 "report-uri").mp hchar
  have hp1 : appendReportUri (mergedCsp st cfg upd rep).2 (some ru) parts0 =
      parts0 ++ [("report-uri", String.intercalate " "
        ((seqToks (mergedCsp st cfg upd rep).2 ru).map forceStr))] :=
    appendReportUri_append _ ru parts0 hne hnm
  have hpbn : partsBeforeNonce st cfg upd rep =
      some (parts0 ++ [("report-uri", String.intercalate " "
        ((seqToks (mergedCsp st cfg upd rep).2 ru).map forceStr))]) := by
    simp only [partsBeforeNonce]
    rw [hbp, Option.map_some', hru, hp1]
  have hkeys1 : dkeys (parts0 ++ [("report-uri", String.intercalate " "
      ((seqToks (mergedCsp st cfg upd rep).2 ru).map forceStr))]) =
      dkeys parts0 ++ ["report-uri"] := by
    simp [dkeys]
  have hconc : ∀ parts2 : List (String × String),
      (finalParts st cfg upd rep nonce).1 = some parts2 →
      dkeys parts2 = dkeys parts0 ++ ["report-uri"] →
      ∃ p2, (finalParts st cfg upd rep nonce).1 = some p2 ∧
        (dkeys p2).getLast? = some "report-uri" ∧
        (∃ v, (p2.map fragmentOf).getLast? =
          some (pyStrip ("report-uri " ++ v))) ∧
        (build_policy st cfg upd rep nonce).1 = some (joinParts p2) := by
    intro parts2 hfp hkeys
    have hlast : (dkeys parts2).getLast? = some "report-uri" := by
      rw [hkeys]
      exact List.getLast?_concat _
    obtain ⟨v, hv⟩ := dkeys_getLast_pair parts2 _ hlast
    refine ⟨parts2, hfp, hlast, ⟨v, ?_⟩, ?_⟩
    · rw [List.getLast?_map, hv]
      rfl
    · rw [build_policy_fst, hfp]
      rfl
  cases nonce with
  | none =>
    apply hconc
    · rw [finalParts_fst_eq, hpbn]
      rfl
    · exact hkeys1
  | some n =>
    have hnonce2 : n = "" ∨
        ∀ sec ∈ cfg.INCLUDE_NONCE_IN.getD ["default-src"],
          sec ∈ dkeys parts0 ∨ sec = "report-uri" := hnonce
    by_cases hne2 : n = ""
    · apply hconc
      · rw [finalParts_fst_eq, hpbn]
        show some (if n = "" then _ else _) = _
        rw [if_pos hne2]
      · exact hkeys1
    · rcases hnonce2 with hn | hn
      · exact absurd hn hne2
      · have hmem : ∀ sec ∈ cfg.INCLUDE_NONCE_IN.getD ["default-src"],
            sec ∈ dkeys (parts0 ++ [("report-uri", String.intercalate " "
              ((seqToks (mergedCsp st cfg upd rep).2 ru).map forceStr))]) := by
          intro sec hs
          rw [hkeys1]
          rcases hn sec hs with h | h
          · exact List.mem_append.mpr (Or.inl h)
          · exact List.mem_append.mpr (Or.inr (h ▸ List.mem_singleton.mpr rfl))
        apply hconc
        · rw [finalParts_fst_eq, hpbn]
          show some (if n = "" then _ else _) = _
          rw [if_neg hne2]
        · rw [injectNonce_keys_of_mem n _ _ hmem]
          exact hkeys1

theorem C1_report_uri_last_witness :
    ((dkeys ([] : List (String × Option PyVal))).Nodup ∧
      mapAddrsOk []
        [("default-src", some (PyVal.tup [Tok.str "'self'"])),
          ("report-uri", some (PyVal.tup [Tok.str "u"]))] = true ∧
      (dpop (mergedCsp []
        ⟨[("default-src", some (PyVal.tup [Tok.str "'self'"])),
          ("report-uri", some (PyVal.tup [Tok.str "u"]))], some ["default-src"]⟩
        [] []).1 "report-uri").1 = some (SeqVal.tup [Tok.str "u"]) ∧
      buildParts (mergedCsp []
        ⟨[("default-src", some (PyVal.tup [Tok.str "'self'"])),
          ("report-uri", some (PyVal.tup [Tok.str "u"]))], some ["default-src"]⟩
        [] []).2
        (dpop (mergedCsp []
          ⟨[("default-src", some (PyVal.tup [Tok.str "'self'"])),
            ("report-uri", some (PyVal.tup [Tok.str "u"]))],
            some ["default-src"]⟩ [] []).1 "report-uri").2 =
        some [("default-src", "'self'")]) ∧
    (∃ parts2, (finalParts []
        ⟨[("default-src", some (PyVal.tup [Tok.str "'self'"])),
          ("report-uri", some (PyVal.tup [Tok.str "u"]))], some ["default-src"]⟩
        [] [] (some "abc")).1 = some parts2 ∧
      (dkeys parts2).getLast? = some "report-uri" ∧
      (∃ v, (parts2.map fragmentOf).getLast? =
        some (pyStrip ("report-uri " ++ v))) ∧
      (build_policy []
        ⟨[("default-src", some (PyVal.tup [Tok.str "'self'"])),
          ("report-uri", some (PyVal.tup [Tok.str "u"]))], some ["default-src"]⟩
        [] [] (some "abc")).1 = some (joinParts parts2)) :=
  ⟨⟨by decide, by decide, rfl, rfl⟩,
    C1_report_uri_last []
      ⟨[("default-src", some (PyVal.tup [Tok.str "'self'"])),
        ("report-uri", some (PyVal.tup [Tok.str "u"]))], some ["default-src"]⟩
      [] [] (some "abc") (SeqVal.tup [Tok.str "u"]) [("default-src", "'self'")]
      (by decide) (by decide) (by decide) (by decide) rfl rfl rfl
      (Or.inr (by decide))⟩

/-- C4: with `INCLUDE_NONCE_IN = ["default-src"]` and nonce `"xyz"`,
the `default-src` fragment of the output is the previous fragment with
`'nonce-xyz'` appended after any existing tokens: the new value is
exactly `strip(f + " 'nonce-xyz'")`, whose character data is the
(left-stripped) prior fragment followed by a space and `'nonce-xyz'` —
so for a nonempty prior fragment with no leading whitespace it is
literally `f ++ " 'nonce-xyz'"` — and it ends with `'nonce-xyz'`.  If
`default-src` had no fragment before injection, the output contains
exactly the fragment `default-src 'nonce-xyz'`.  Injection happens
after serialization, for any base, update and replace maps. -/
theorem C4_nonce_injection (st : Store) (cfg : Config)
    (upd rep : List (String × Option PyVal))
    (parts1 : List (String × String))
    (hinc : cfg.INCLUDE_NONCE_IN = some ["default-src"])
    (hp : partsBeforeNonce st cfg upd rep = some parts1) :
    ∃ parts2, (finalParts st cfg upd rep (some "xyz")).1 = some parts2 ∧
      (∀ f, dlookup parts1 "default-src" = some f →
        ∃ v, dlookup parts2 "default-src" = some v ∧
          v = pyStrip (f ++ " 'nonce-xyz'") ∧
          v.data = (f.data ++ [' ']).dropWhile pyWs ++ ("'nonce-xyz'").data ∧
          (f ≠ "" → f.data.dropWhile pyWs = f.data →
            v.data = f.data ++ (" 'nonce-xyz'").data) ∧
          ("'nonce-xyz'").data <:+ v.data ∧
          pyStrip ("default-src " ++ v) ∈ parts2.map fragmentOf ∧
          ("'nonce-xyz'").data <:+ (pyStrip ("default-src " ++ v)).data) ∧
      (dlookup parts1 "default-src" = none →
        ("default-src", "'nonce-xyz'") ∈ parts2 ∧
        "default-src 'nonce-xyz'" ∈ parts2.map fragmentOf) := by
  have hdata : ∀ g : String, (g ++ " 'nonce-xyz'").data =
      (g.data ++ [' ']) ++ ("'nonce-xyz'").data := by
    intro g
    rw [String.data_append]
    rw [show (" 'nonce-xyz'").data = ' ' :: ("'nonce-xyz'").data from rfl]
    rw [← List.singleton_append, ← List.append_assoc]
  have hkeep : ∀ a : List Char,
      pyStripList (a ++ ("'nonce-xyz'").data) =
        a.dropWhile pyWs ++ ("'nonce-xyz'").data := fun a =>
    pyStripList_append_keep a ("'nonce-xyz'").data '\'' '\''
      ("nonce-xyz'").data (("'nonce-xyz").data.reverse) rfl (by decide)
      (by decide) (by decide)
  have hsuffix : ∀ a : List Char,
      ("'nonce-xyz'").data <:+ pyStripList (a ++ ("'nonce-xyz'").data) := by
    intro a
    rw [hkeep a]
    exact ⟨a.dropWhile pyWs, rfl⟩
  refine ⟨dinsert parts1 "default-src"
      (pyStrip (((dlookup parts1 "default-src").getD "") ++ " 'nonce-" ++
        "xyz" ++ "'")), ?_, ?_, ?_⟩
  · rw [finalParts_fst_eq, hp]
    show some (if ("xyz" : String) = "" then parts1
      else injectNonce parts1 (cfg.INCLUDE_NONCE_IN.getD ["default-src"])
        "xyz") = _
    rw [if_neg (by decide), hinc]
    rfl
  · intro f hf
    have hcat : f ++ " 'nonce-" ++ "xyz" ++ "'" = f ++ " 'nonce-xyz'" := by
      rw [String.append_assoc, String.append_assoc]
      congr 1
    have hval : pyStrip (((dlookup parts1 "default-src").getD "") ++
        " 'nonce-" ++ "xyz" ++ "'") = pyStrip (f ++ " 'nonce-xyz'") := by
      rw [hf]
      show pyStrip (f ++ " 'nonce-" ++ "xyz" ++ "'") = _
      rw [hcat]
    have hv2 : (pyStrip (f ++ " 'nonce-xyz'")).data =
        ((f.data ++ [' ']).dropWhile pyWs) ++ ("'nonce-xyz'").data := by
      show pyStripList ((f ++ " 'nonce-xyz'").data) = _
      rw [hdata f]
      exact hkeep _
    refine ⟨pyStrip (f ++ " 'nonce-xyz'"), ?_, rfl, hv2, ?_, ?_, ?_, ?_⟩
    · rw [hval]
      exact dlookup_dinsert_self parts1 _ _
    · intro hne hnl
      have hfd : f.data ≠ [] := fun h0 => hne (by
        have hfe : f = String.mk f.data := rfl
        rw [hfe, h0])
      have hie : f.data.isEmpty = false := by
        cases hq : f.data with
        | nil => exact absurd hq hfd
        | cons a l => rfl
      have hYs : (f.data ++ [' ']).dropWhile pyWs = f.data ++ [' '] := by
        rw [dropWhile_append, hnl, hie]
        simp
      rw [hv2, hYs, List.append_assoc]
      rw [show ([' '] ++ ("'nonce-xyz'").data) = (" 'nonce-xyz'").data from rfl]
    · show ("'nonce-xyz'").data <:+
        pyStripList ((f ++ " 'nonce-xyz'").data)
      rw [hdata f]
      exact hsuffix _
    · have hm : ("default-src", pyStrip (f ++ " 'nonce-xyz'")) ∈
          dinsert parts1 "default-src"
            (pyStrip (((dlookup parts1 "default-src").getD "") ++ " 'nonce-" ++
              "xyz" ++ "'")) := by
        apply mem_of_dlookup
        rw [hval]
        exact dlookup_dinsert_self parts1 _ _
      exact List.mem_map.mpr ⟨_, hm, rfl⟩
    · show ("'nonce-xyz'").data <:+
        pyStripList (("default-src " ++
          pyStrip (f ++ " 'nonce-xyz'")).data)
      rw [String.data_append, hv2, ← List.append_assoc]
      exact hsuffix _
  · intro hf
    have hval : pyStrip (((dlookup parts1 "default-src").getD "") ++
        " 'nonce-" ++ "xyz" ++ "'") = "'nonce-xyz'" := by
      rw [hf]
      rfl
    have hnm : "default-src" ∉ dkeys parts1 :=
      (dlookup_eq_none_iff parts1 "default-src").mp hf
    have happ : dinsert parts1 "default-src"
        (pyStrip (((dlookup parts1 "default-src").getD "") ++ " 'nonce-" ++
          "xyz" ++ "'")) = parts1 ++ [("default-src", "'nonce-xyz'")] := by
      rw [hval]
      exact dinsert_of_not_mem _ _ _ hnm
    rw [happ]
    constructor
    · exact List.mem_append.mpr (Or.inr (List.mem_singleton.mpr rfl))
    · rw [List.map_append]
      refine List.mem_append.mpr (Or.inr ?_)
      show "default-src 'nonce-xyz'" ∈ [fragmentOf ("default-src", "'nonce-xyz'")]
      rw [show fragmentOf ("default-src", "'nonce-xyz'") =
        "default-src 'nonce-xyz'" from rfl]
      exact List.mem_singleton.mpr rfl

theorem C4_nonce_injection_witness :
    ((Config.mk [("default-src", some (PyVal.tup [Tok.str "'self'"]))]
        (some ["default-src"])).INCLUDE_NONCE_IN = some ["default-src"] ∧
      partsBeforeNonce []
        ⟨[("default-src", some (PyVal.tup [Tok.str "'self'"]))],
          some ["default-src"]⟩ [] [] = some [("default-src", "'self'")]) ∧
    (∃ parts2, (finalParts []
        ⟨[("default-src", some (PyVal.tup [Tok.str "'self'"]))],
          some ["default-src"]⟩ [] [] (some "xyz")).1 = some parts2 ∧
      (∀ f, dlookup [("default-src", "'self'")] "default-src" = some f →
        ∃ v, dlookup parts2 "default-src" = some v ∧
          v = pyStrip (f ++ " 'nonce-xyz'") ∧
          v.data = (f.data ++ [' ']).dropWhile pyWs ++ ("'nonce-xyz'").data ∧
          (f ≠ "" → f.data.dropWhile pyWs = f.data →
            v.data = f.data ++ (" 'nonce-xyz'").data) ∧
          ("'nonce-xyz'").data <:+ v.data ∧
          pyStrip ("default-src " ++ v) ∈ parts2.map fragmentOf ∧
          ("'nonce-xyz'").data <:+ (pyStrip ("default-src " ++ v)).data) ∧
      (dlookup [("default-src", "'self'")] "default-src" = none →
        ("default-src", "'nonce-xyz'") ∈ parts2 ∧
        "default-src 'nonce-xyz'" ∈ parts2.map fragmentOf)) :=
  ⟨⟨rfl, rfl⟩, C4_nonce_injection []
    ⟨[("default-src", some (PyVal.tup [Tok.str "'self'"]))],
      some ["default-src"]⟩ [] [] [("default-src", "'self'")] rfl rfl⟩

end Csp
